import Mathlib

set_option maxRecDepth 20000
set_option exponentiation.threshold 2000

/-!
# Verification of the py-svg-chart core (`pysvgchart.py`)

A shallow embedding of the chart library's limit computation, coordinate
mapping, primitive tree and chart composition, together with theorems that
settle the specification claims.

Modelling conventions:
* Python floats are modelled as exact rationals (`ℚ`); `math.log10`-based
  comparisons are re-expressed as exact rational power comparisons (for
  `x > 0` and integers `e, t`: `log10 x - e < t/1000  ↔  x ^ 1000 < 10 ^ (1000*e + t)`).
* Fallible Python code (raising `ValueError` / `IndexError`) is modelled with
  `Except String`.
* `datetime.date` is modelled by a year/month/day record ordered
  lexicographically, with the proleptic-Gregorian ordinal (`Date.toOrd`)
  giving `timedelta` subtraction, exactly as Python's `datetime` module does.
* Python's `min(xs)` / `max(xs)` on a nonempty sequence are the fold of the
  binary min/max over the sequence (`pyMin` / `pyMax`).
-/

/-! ## Python `min` / `max` over a list -/

/-- Python's `min(xs)` on a nonempty list; `default` on `[]` (where Python raises). -/
def pyMin {α : Type} [LinearOrder α] [Inhabited α] : List α → α
  | [] => default
  | x :: xs => xs.foldl min x

/-- Python's `max(xs)` on a nonempty list; `default` on `[]` (where Python raises). -/
def pyMax {α : Type} [LinearOrder α] [Inhabited α] : List α → α
  | [] => default
  | x :: xs => xs.foldl max x

theorem foldl_min_le {α : Type} [LinearOrder α] :
    ∀ (xs : List α) (a : α), xs.foldl min a ≤ a ∧ ∀ x ∈ xs, xs.foldl min a ≤ x := by
  intro xs
  induction xs with
  | nil => intro a; exact ⟨le_refl a, by simp⟩
  | cons x xs ih =>
    intro a
    constructor
    · calc List.foldl min a (x :: xs) = List.foldl min (min a x) xs := rfl
        _ ≤ min a x := (ih (min a x)).1
        _ ≤ a := min_le_left a x
    · intro y hy
      rcases List.mem_cons.mp hy with h | h
      · subst h
        calc List.foldl min a (y :: xs) = List.foldl min (min a y) xs := rfl
          _ ≤ min a y := (ih (min a y)).1
          _ ≤ y := min_le_right a y
      · exact (ih (min a x)).2 y h

theorem le_foldl_max {α : Type} [LinearOrder α] :
    ∀ (xs : List α) (a : α), a ≤ xs.foldl max a ∧ ∀ x ∈ xs, x ≤ xs.foldl max a := by
  intro xs
  induction xs with
  | nil => intro a; exact ⟨le_refl a, by simp⟩
  | cons x xs ih =>
    intro a
    constructor
    · calc a ≤ max a x := le_max_left a x
        _ ≤ List.foldl max (max a x) xs := (ih (max a x)).1
        _ = List.foldl max a (x :: xs) := rfl
    · intro y hy
      rcases List.mem_cons.mp hy with h | h
      · subst h
        calc y ≤ max a y := le_max_right a y
          _ ≤ List.foldl max (max a y) xs := (ih (max a y)).1
          _ = List.foldl max a (y :: xs) := rfl
      · exact (ih (max a x)).2 y h

theorem pyMin_le {α : Type} [LinearOrder α] [Inhabited α]
    {l : List α} {x : α} (hx : x ∈ l) : pyMin l ≤ x := by
  cases l with
  | nil => cases hx
  | cons a as =>
    rcases List.mem_cons.mp hx with h | h
    · exact h ▸ (foldl_min_le as a).1
    · exact (foldl_min_le as a).2 x h

theorem le_pyMax {α : Type} [LinearOrder α] [Inhabited α]
    {l : List α} {x : α} (hx : x ∈ l) : x ≤ pyMax l := by
  cases l with
  | nil => cases hx
  | cons a as =>
    rcases List.mem_cons.mp hx with h | h
    · exact h ▸ (le_foldl_max as a).1
    · exact (le_foldl_max as a).2 x h

theorem foldl_min_mem {α : Type} [LinearOrder α] :
    ∀ (xs : List α) (a : α), xs.foldl min a ∈ a :: xs := by
  intro xs
  induction xs with
  | nil => intro a; simp
  | cons x xs ih =>
    intro a
    have h := ih (min a x)
    rcases List.mem_cons.mp h with h' | h'
    · rcases min_choice a x with hc | hc
      · exact List.mem_cons.mpr (Or.inl (by rw [List.foldl_cons, h', hc]))
      · refine List.mem_cons.mpr (Or.inr (List.mem_cons.mpr (Or.inl ?_)))
        rw [List.foldl_cons, h', hc]
    · exact List.mem_cons.mpr (Or.inr (List.mem_cons.mpr (Or.inr h')))

theorem foldl_max_mem {α : Type} [LinearOrder α] :
    ∀ (xs : List α) (a : α), xs.foldl max a ∈ a :: xs := by
  intro xs
  induction xs with
  | nil => intro a; simp
  | cons x xs ih =>
    intro a
    have h := ih (max a x)
    rcases List.mem_cons.mp h with h' | h'
    · rcases max_choice a x with hc | hc
      · exact List.mem_cons.mpr (Or.inl (by rw [List.foldl_cons, h', hc]))
      · refine List.mem_cons.mpr (Or.inr (List.mem_cons.mpr (Or.inl ?_)))
        rw [List.foldl_cons, h', hc]
    · exact List.mem_cons.mpr (Or.inr (List.mem_cons.mpr (Or.inr h')))

theorem pyMin_mem {α : Type} [LinearOrder α] [Inhabited α]
    {l : List α} (h : l ≠ []) : pyMin l ∈ l := by
  cases l with
  | nil => exact absurd rfl h
  | cons a as => exact foldl_min_mem as a

theorem pyMax_mem {α : Type} [LinearOrder α] [Inhabited α]
    {l : List α} (h : l ≠ []) : pyMax l ∈ l := by
  cases l with
  | nil => exact absurd rfl h
  | cons a as => exact foldl_max_mem as a

theorem pyMin_le_pyMax {α : Type} [LinearOrder α] [Inhabited α]
    {l : List α} (h : l ≠ []) : pyMin l ≤ pyMax l :=
  le_pyMax (pyMin_mem h)

/-- A list with at least two elements in its `dedup` has two distinct members. -/
theorem exists_distinct_of_dedup {α : Type} [DecidableEq α]
    {l : List α} (h : 2 ≤ l.dedup.length) :
    ∃ a ∈ l, ∃ b ∈ l, a ≠ b := by
  rcases hd : l.dedup with _ | ⟨a, _ | ⟨b, t⟩⟩
  · simp [hd] at h
  · simp [hd] at h
  · have hnd : l.dedup.Nodup := l.nodup_dedup
    rw [hd] at hnd
    have hab : a ≠ b := by
      intro hab
      exact (List.nodup_cons.mp hnd).1 (hab ▸ List.mem_cons_self b t)
    have ha : a ∈ l := (List.mem_dedup).mp (hd ▸ List.mem_cons_self a (b :: t))
    have hb : b ∈ l := (List.mem_dedup).mp
      (hd ▸ List.mem_cons.mpr (Or.inr (List.mem_cons_self b t)))
    exact ⟨a, ha, b, hb, hab⟩

theorem pyMin_lt_pyMax {α : Type} [LinearOrder α] [Inhabited α] [DecidableEq α]
    {l : List α} (h : 2 ≤ l.dedup.length) : pyMin l < pyMax l := by
  obtain ⟨a, ha, b, hb, hab⟩ := exists_distinct_of_dedup h
  by_contra hle
  push_neg at hle
  have h1 : pyMin l ≤ a := pyMin_le ha
  have h2 : a ≤ pyMax l := le_pyMax ha
  have h3 : pyMin l ≤ b := pyMin_le hb
  have h4 : b ≤ pyMax l := le_pyMax hb
  exact hab (le_antisymm (le_trans h2 (le_trans hle h3))
    (le_trans h4 (le_trans hle h1)))

/-! ## Numeric limit computation (`get_numeric_limits`)

Embeds

```
def get_numeric_limits(values, max_ticks):
    value_min, value_max = min(values), max(values)
    raw_pad = (1.2 * value_max - 0.95 * value_min) / max_ticks
    remainder = math.log10(abs(raw_pad)) - int(math.log10(abs(raw_pad)))
    leader = 2 if remainder < 0.301 else (5 if remainder < 0.698 else 10)
    pad = leader * 10 ** int(math.log10(abs(raw_pad)))
    start = int(math.floor(0.95 * value_min / pad))
    end = int(math.ceil(1.2 * value_max / pad))
    return [y * pad for y in range(start, end + 1)]
```

`math.log10(0)` raises `ValueError: math domain error`, hence the error case.
Python's `int()` on a float truncates toward zero, so
`int(math.log10 q) = ⌊log10 q⌋` for `q ≥ 1` and `-⌊log10 (1/q)⌋` for `0 < q < 1`;
this is `intLog10` below, expressed with the kernel-computable `natLog10`.  The comparison
`log10 q - intLog10 q < t/1000` is expressed exactly as
`q ^ 1000 < 10 ^ (1000 * intLog10 q + t)`.
-/

/-- Base-10 logarithm on `ℕ` (largest `k` with `10 ^ k ≤ n`, and `0` for `n = 0`),
written with explicit fuel so that it reduces by kernel computation.  The first
argument is the fuel; it is bounded below by the second. -/
def natLog10Aux : ℕ → ℕ → ℕ
  | 0, _ => 0
  | fuel + 1, n => if n < 10 then 0 else natLog10Aux fuel (n / 10) + 1

/-- Base-10 logarithm on `ℕ` (see `natLog10_bounds`). -/
def natLog10 (n : ℕ) : ℕ := natLog10Aux n n

/-- `int(math.log10 q)` for a rational `q > 0`: truncation toward zero of the
real base-10 logarithm (`⌊log10 q⌋` for `q ≥ 1`, `-⌊log10 (1/q)⌋` for `q < 1`;
see `intLog10_spec_ge_one` and `intLog10_spec_lt_one`). -/
def intLog10 (q : ℚ) : ℤ :=
  if 1 ≤ q then (natLog10 ⌊q⌋.toNat : ℤ) else -(natLog10 ⌊q⁻¹⌋.toNat : ℤ)

/-- `raw_pad` of `get_numeric_limits`. -/
def rawPad (values : List ℚ) (max_ticks : ℕ) : ℚ :=
  ((1.2 : ℚ) * pyMax values - (0.95 : ℚ) * pyMin values) / (max_ticks : ℚ)

/-- The snapped leading digit `leader` of `get_numeric_limits`, for `q = |raw_pad|`:
`2` if `remainder < 0.301`, `5` if `remainder < 0.698`, else `10`.  Since
`remainder = log10 q - intLog10 q`, the test `remainder < t/1000` is equivalent
to the exact rational comparison `q ^ 1000 < 10 ^ (1000 * intLog10 q + t)`,
which is how it is written here. -/
def numericLeader (q : ℚ) : ℚ :=
  if q ^ (1000 : ℕ) < (10 : ℚ) ^ (1000 * intLog10 q + 301) then 2
  else if q ^ (1000 : ℕ) < (10 : ℚ) ^ (1000 * intLog10 q + 698) then 5
  else 10

/-- The tick step `pad = leader * 10 ** int(log10 |raw_pad|)`. -/
def numericPad (q : ℚ) : ℚ := numericLeader q * (10 : ℚ) ^ intLog10 q

/-- `start = int(math.floor(0.95 * value_min / pad))` of `get_numeric_limits`. -/
def numericStart (values : List ℚ) (max_ticks : ℕ) : ℤ :=
  ⌊(0.95 : ℚ) * pyMin values / numericPad |rawPad values max_ticks|⌋

/-- `end = int(math.ceil(1.2 * value_max / pad))` of `get_numeric_limits`. -/
def numericStop (values : List ℚ) (max_ticks : ℕ) : ℤ :=
  ⌈(1.2 : ℚ) * pyMax values / numericPad |rawPad values max_ticks|⌉

/-- Embeds `get_numeric_limits` (see the section comment): the returned list is
`[y * pad for y in range(start, end + 1)]`, which is empty when `end < start`. -/
def get_numeric_limits (values : List ℚ) (max_ticks : ℕ) : Except String (List ℚ) :=
  if rawPad values max_ticks = 0 then .error "math domain error"
  else
    .ok ((List.range (numericStop values max_ticks + 1 - numericStart values max_ticks).toNat).map
      (fun (y : ℕ) => ((numericStart values max_ticks + (y : ℤ) : ℤ) : ℚ) * numericPad |rawPad values max_ticks|))

theorem numericLeader_pos (q : ℚ) : 0 < numericLeader q := by
  unfold numericLeader
  split_ifs <;> norm_num

theorem numericPad_pos (q : ℚ) : 0 < numericPad q :=
  mul_pos (numericLeader_pos q) (zpow_pos (by norm_num) _)

/-- The fuel-based base-10 logarithm satisfies the defining bounds. -/
theorem natLog10Aux_bounds :
    ∀ (fuel n : ℕ), 1 ≤ n → n ≤ fuel →
      10 ^ natLog10Aux fuel n ≤ n ∧ n < 10 ^ (natLog10Aux fuel n + 1) := by
  intro fuel
  induction fuel with
  | zero => intro n h1 h2; omega
  | succ fuel ih =>
    intro n h1 h2
    by_cases hlt : n < 10
    · simp only [natLog10Aux, if_pos hlt]
      constructor
      · simpa using h1
      · simpa using hlt
    · simp only [natLog10Aux, if_neg hlt]
      push_neg at hlt
      have hdiv1 : 1 ≤ n / 10 := (Nat.one_le_div_iff (by norm_num)).mpr hlt
      have hdivlt : n / 10 < n := Nat.div_lt_self (by omega) (by norm_num)
      obtain ⟨ihl, ihr⟩ := ih (n / 10) hdiv1 (by omega)
      constructor
      · calc 10 ^ (natLog10Aux fuel (n / 10) + 1)
            = 10 ^ natLog10Aux fuel (n / 10) * 10 := by ring
          _ ≤ (n / 10) * 10 := Nat.mul_le_mul_right 10 ihl
          _ ≤ n := by
              have := Nat.div_add_mod n 10
              omega
      · have hsucc : n / 10 + 1 ≤ 10 ^ (natLog10Aux fuel (n / 10) + 1) := ihr
        calc n < (n / 10 + 1) * 10 := by
              have := Nat.div_add_mod n 10
              have : n % 10 < 10 := Nat.mod_lt n (by norm_num)
              omega
          _ ≤ 10 ^ (natLog10Aux fuel (n / 10) + 1) * 10 := Nat.mul_le_mul_right 10 hsucc
          _ = 10 ^ (natLog10Aux fuel (n / 10) + 1 + 1) := by ring

theorem natLog10_bounds {n : ℕ} (h : 1 ≤ n) :
    10 ^ natLog10 n ≤ n ∧ n < 10 ^ (natLog10 n + 1) :=
  natLog10Aux_bounds n n h (le_refl n)

/-- Characterisation of `intLog10` for `q ≥ 1`: it is `⌊log10 q⌋`. -/
theorem intLog10_spec_ge_one {q : ℚ} (h : 1 ≤ q) :
    (10 : ℚ) ^ intLog10 q ≤ q ∧ q < (10 : ℚ) ^ (intLog10 q + 1) := by
  have hq0 : (0 : ℚ) < q := lt_of_lt_of_le one_pos h
  have hfl1 : (1 : ℤ) ≤ ⌊q⌋ := by
    have := Int.le_floor.mpr (by exact_mod_cast h : ((1 : ℤ) : ℚ) ≤ q)
    exact this
  set N := ⌊q⌋.toNat with hN
  have hN1 : 1 ≤ N := by omega
  have hNcast : ((N : ℤ) : ℚ) = ((⌊q⌋ : ℤ) : ℚ) := by
    rw [hN, Int.toNat_of_nonneg (by omega)]
  have hNle : (N : ℚ) ≤ q := by
    have := Int.floor_le q
    calc (N : ℚ) = ((⌊q⌋ : ℤ) : ℚ) := by exact_mod_cast hNcast
      _ ≤ q := this
  have hNgt : q < (N : ℚ) + 1 := by
    have := Int.lt_floor_add_one q
    calc q < ((⌊q⌋ : ℤ) : ℚ) + 1 := this
      _ = (N : ℚ) + 1 := by rw [← hNcast]; norm_num
  obtain ⟨hl, hr⟩ := natLog10_bounds hN1
  unfold intLog10
  rw [if_pos h]
  constructor
  · calc (10 : ℚ) ^ (natLog10 ⌊q⌋.toNat : ℤ) = ((10 ^ natLog10 N : ℕ) : ℚ) := by
          rw [← hN, zpow_natCast]; push_cast; ring
      _ ≤ (N : ℚ) := by exact_mod_cast hl
      _ ≤ q := hNle
  · calc q < (N : ℚ) + 1 := hNgt
      _ ≤ ((10 ^ (natLog10 N + 1) : ℕ) : ℚ) := by exact_mod_cast Nat.succ_le_of_lt hr
      _ = (10 : ℚ) ^ ((natLog10 ⌊q⌋.toNat : ℤ) + 1) := by
          rw [← hN,
            show ((natLog10 N : ℤ) + 1) = ((natLog10 N + 1 : ℕ) : ℤ) by push_cast; ring,
            zpow_natCast]
          push_cast; ring

/-- Characterisation of `intLog10` for `0 < q < 1`: it is `-⌊log10 q⁻¹⌋`,
so `10 ^ (m - 1) < q ≤ 10 ^ m`. -/
theorem intLog10_spec_lt_one {q : ℚ} (h0 : 0 < q) (h : q < 1) :
    (10 : ℚ) ^ (intLog10 q - 1) < q ∧ q ≤ (10 : ℚ) ^ intLog10 q := by
  have hinv : 1 ≤ q⁻¹ := (one_le_inv_iff₀.mpr ⟨h0, le_of_lt h⟩)
  have hspec := intLog10_spec_ge_one hinv
  have hm : intLog10 q = -(intLog10 q⁻¹) := by
    unfold intLog10
    rw [if_neg (not_le.mpr h), if_pos hinv]
  rw [hm]
  have hq0' : (0 : ℚ) < q⁻¹ := inv_pos.mpr h0
  constructor
  · have h2 : q⁻¹ < (10 : ℚ) ^ (intLog10 q⁻¹ + 1) := hspec.2
    have h10 : (0 : ℚ) < (10 : ℚ) ^ (intLog10 q⁻¹ + 1) := zpow_pos (by norm_num) _
    have h3 := (inv_lt_inv₀ h10 hq0').mpr h2
    rw [← zpow_neg, inv_inv] at h3
    have hexp : -(intLog10 q⁻¹) - 1 = -(intLog10 q⁻¹ + 1) := by ring
    rw [hexp]
    exact h3
  · have h1 := hspec.1
    have h10 : (0 : ℚ) < (10 : ℚ) ^ (intLog10 q⁻¹) := zpow_pos (by norm_num) _
    have := (inv_le_inv₀ hq0' h10).mpr h1
    rw [← zpow_neg, inv_inv] at this
    exact this


/-- Uniqueness of the truncated logarithm, `q ≥ 1` side: any exponent whose
decade contains `q` is `intLog10 q`. -/
theorem intLog10_eq_of_ge_one {q : ℚ} (h : 1 ≤ q) {e : ℤ}
    (hl : (10 : ℚ) ^ e ≤ q) (hu : q < (10 : ℚ) ^ (e + 1)) : intLog10 q = e := by
  obtain ⟨h1, h2⟩ := intLog10_spec_ge_one h
  by_contra hne
  rcases lt_or_gt_of_ne hne with hlt | hgt
  · have hle : (10 : ℚ) ^ (intLog10 q + 1) ≤ (10 : ℚ) ^ e :=
      zpow_le_zpow_right₀ (by norm_num) (by omega)
    linarith
  · have hle : (10 : ℚ) ^ (e + 1) ≤ (10 : ℚ) ^ intLog10 q :=
      zpow_le_zpow_right₀ (by norm_num) (by omega)
    linarith

/-- Uniqueness of the truncated logarithm, `0 < q < 1` side. -/
theorem intLog10_eq_of_lt_one {q : ℚ} (h0 : 0 < q) (h : q < 1) {e : ℤ}
    (hl : (10 : ℚ) ^ (e - 1) < q) (hu : q ≤ (10 : ℚ) ^ e) : intLog10 q = e := by
  obtain ⟨h1, h2⟩ := intLog10_spec_lt_one h0 h
  by_contra hne
  rcases lt_or_gt_of_ne hne with hlt | hgt
  · have hle : (10 : ℚ) ^ intLog10 q ≤ (10 : ℚ) ^ (e - 1) :=
      zpow_le_zpow_right₀ (by norm_num) (by omega)
    linarith
  · have hle : (10 : ℚ) ^ e ≤ (10 : ℚ) ^ (intLog10 q - 1) :=
      zpow_le_zpow_right₀ (by norm_num) (by omega)
    linarith

theorem numericStart_mul_le (values : List ℚ) (mt : ℕ) :
    (numericStart values mt : ℚ) * numericPad |rawPad values mt| ≤
      (0.95 : ℚ) * pyMin values := by
  have hpad : 0 < numericPad |rawPad values mt| := numericPad_pos _
  have h := Int.floor_le ((0.95 : ℚ) * pyMin values / numericPad |rawPad values mt|)
  calc (numericStart values mt : ℚ) * numericPad |rawPad values mt|
      ≤ ((0.95 : ℚ) * pyMin values / numericPad |rawPad values mt|) *
          numericPad |rawPad values mt| := by
        exact mul_le_mul_of_nonneg_right h (le_of_lt hpad)
    _ = (0.95 : ℚ) * pyMin values := div_mul_cancel₀ _ (ne_of_gt hpad)

theorem le_numericStop_mul (values : List ℚ) (mt : ℕ) :
    (1.2 : ℚ) * pyMax values ≤
      (numericStop values mt : ℚ) * numericPad |rawPad values mt| := by
  have hpad : 0 < numericPad |rawPad values mt| := numericPad_pos _
  have h := Int.le_ceil ((1.2 : ℚ) * pyMax values / numericPad |rawPad values mt|)
  calc (1.2 : ℚ) * pyMax values
      = ((1.2 : ℚ) * pyMax values / numericPad |rawPad values mt|) *
          numericPad |rawPad values mt| := (div_mul_cancel₀ _ (ne_of_gt hpad)).symm
    _ ≤ (numericStop values mt : ℚ) * numericPad |rawPad values mt| :=
        mul_le_mul_of_nonneg_right h (le_of_lt hpad)

theorem numericStart_le_stop {values : List ℚ} {mt : ℕ}
    (h : (0.95 : ℚ) * pyMin values ≤ (1.2 : ℚ) * pyMax values) :
    numericStart values mt ≤ numericStop values mt := by
  have hpad : 0 < numericPad |rawPad values mt| := numericPad_pos _
  have h1 := Int.floor_le ((0.95 : ℚ) * pyMin values / numericPad |rawPad values mt|)
  have h2 := Int.le_ceil ((1.2 : ℚ) * pyMax values / numericPad |rawPad values mt|)
  have hd : (0.95 : ℚ) * pyMin values / numericPad |rawPad values mt| ≤
      (1.2 : ℚ) * pyMax values / numericPad |rawPad values mt| :=
    (div_le_div_iff_of_pos_right hpad).mpr h
  have : (numericStart values mt : ℚ) ≤ (numericStop values mt : ℚ) := by
    calc (numericStart values mt : ℚ)
        ≤ (0.95 : ℚ) * pyMin values / numericPad |rawPad values mt| := h1
      _ ≤ (1.2 : ℚ) * pyMax values / numericPad |rawPad values mt| := hd
      _ ≤ (numericStop values mt : ℚ) := h2
  exact_mod_cast this

theorem numericStart_lt_stop {values : List ℚ} {mt : ℕ}
    (h : (0.95 : ℚ) * pyMin values < (1.2 : ℚ) * pyMax values) :
    numericStart values mt < numericStop values mt := by
  have hpad : 0 < numericPad |rawPad values mt| := numericPad_pos _
  have h1 := Int.floor_le ((0.95 : ℚ) * pyMin values / numericPad |rawPad values mt|)
  have h2 := Int.le_ceil ((1.2 : ℚ) * pyMax values / numericPad |rawPad values mt|)
  have hd : (0.95 : ℚ) * pyMin values / numericPad |rawPad values mt| <
      (1.2 : ℚ) * pyMax values / numericPad |rawPad values mt| :=
    (div_lt_div_iff_of_pos_right hpad).mpr h
  have : (numericStart values mt : ℚ) < (numericStop values mt : ℚ) := by
    calc (numericStart values mt : ℚ)
        ≤ (0.95 : ℚ) * pyMin values / numericPad |rawPad values mt| := h1
      _ < (1.2 : ℚ) * pyMax values / numericPad |rawPad values mt| := hd
      _ ≤ (numericStop values mt : ℚ) := h2
  exact_mod_cast this

theorem get_numeric_limits_error {values : List ℚ} {mt : ℕ}
    (h : rawPad values mt = 0) :
    get_numeric_limits values mt = .error "math domain error" := by
  unfold get_numeric_limits
  rw [if_pos h]

theorem get_numeric_limits_ok {values : List ℚ} {mt : ℕ}
    (h : rawPad values mt ≠ 0) :
    get_numeric_limits values mt =
      .ok ((List.range (numericStop values mt + 1 - numericStart values mt).toNat).map
        (fun (y : ℕ) => ((numericStart values mt + (y : ℤ) : ℤ) : ℚ) * numericPad |rawPad values mt|)) := by
  unfold get_numeric_limits
  rw [if_neg h]

theorem get_numeric_limits_ok_elim {values : List ℚ} {mt : ℕ} {l : List ℚ}
    (h : get_numeric_limits values mt = .ok l) :
    rawPad values mt ≠ 0 ∧
      l = (List.range (numericStop values mt + 1 - numericStart values mt).toNat).map
        (fun (y : ℕ) => ((numericStart values mt + (y : ℤ) : ℤ) : ℚ) * numericPad |rawPad values mt|) := by
  by_cases hr : rawPad values mt = 0
  · rw [get_numeric_limits_error hr] at h
    cases h
  · rw [get_numeric_limits_ok hr] at h
    exact ⟨hr, (Except.ok.injEq _ _ ▸ h).symm⟩

/-! ## Calendar dates (`datetime.date` / `datetime.datetime`)

`datetime` values appearing in the library are midnight datetimes, so a
year/month/day record suffices.  Python compares dates lexicographically by
`(year, month, day)`; `Date.toOrd` is the proleptic-Gregorian ordinal
(`date.toordinal`, with `0001-01-01 ↦ 1`), which gives `timedelta`
subtraction: `(a - b).days = a.toOrd - b.toOrd`. -/

structure Date where
  year : ℕ
  month : ℕ
  day : ℕ
  deriving DecidableEq, Repr

instance : Inhabited Date := ⟨⟨1, 1, 1⟩⟩

/-- The lexicographic key `(year, (month, day))` of a date. -/
def Date.key (d : Date) : Lex (ℕ × Lex (ℕ × ℕ)) := toLex (d.year, toLex (d.month, d.day))

theorem Date.key_injective : Function.Injective Date.key := by
  intro a b h
  cases a with
  | mk y1 m1 d1 =>
    cases b with
    | mk y2 m2 d2 =>
      unfold Date.key at h
      have h1 := toLex.injective h
      have hy : y1 = y2 := congrArg Prod.fst h1
      have h2 := congrArg Prod.snd h1
      have h3 := toLex.injective h2
      have hm : m1 = m2 := congrArg Prod.fst h3
      have hd : d1 = d2 := congrArg Prod.snd h3
      simp [hy, hm, hd]

/-- Python's lexicographic comparison of dates. -/
instance : LinearOrder Date := LinearOrder.lift' Date.key Date.key_injective

theorem Date.le_def {a b : Date} :
    a ≤ b ↔ (a.year < b.year ∨ (a.year = b.year ∧
      (a.month < b.month ∨ (a.month = b.month ∧ a.day ≤ b.day)))) := by
  show Date.key a ≤ Date.key b ↔ _
  unfold Date.key
  rw [Prod.Lex.le_iff]
  constructor
  · rintro (h | ⟨he, hrest⟩)
    · exact Or.inl h
    · rw [Prod.Lex.le_iff] at hrest
      exact Or.inr ⟨he, hrest⟩
  · rintro (h | ⟨he, hrest⟩)
    · exact Or.inl h
    · exact Or.inr ⟨he, (Prod.Lex.le_iff _ _).mpr hrest⟩

theorem Date.lt_def {a b : Date} :
    a < b ↔ (a.year < b.year ∨ (a.year = b.year ∧
      (a.month < b.month ∨ (a.month = b.month ∧ a.day < b.day)))) := by
  show Date.key a < Date.key b ↔ _
  unfold Date.key
  rw [Prod.Lex.lt_iff]
  constructor
  · rintro (h | ⟨he, hrest⟩)
    · exact Or.inl h
    · rw [Prod.Lex.lt_iff] at hrest
      exact Or.inr ⟨he, hrest⟩
  · rintro (h | ⟨he, hrest⟩)
    · exact Or.inl h
    · exact Or.inr ⟨he, (Prod.Lex.lt_iff _ _).mpr hrest⟩

/-- Python's leap-year rule (`calendar.isleap`, used inside `datetime`). -/
def isLeap (y : ℕ) : Prop := y % 4 = 0 ∧ (y % 100 ≠ 0 ∨ y % 400 = 0)

instance (y : ℕ) : Decidable (isLeap y) := by
  unfold isLeap
  infer_instance

/-- Number of days of month `m` (1-based) in year `y` (`datetime`'s month lengths). -/
def daysInMonth (y m : ℕ) : ℕ :=
  if m = 2 then (if isLeap y then 29 else 28)
  else if m = 4 ∨ m = 6 ∨ m = 9 ∨ m = 11 then 30 else 31

/-- Days in year `y` strictly before month `m` (1-based). -/
def daysBeforeMonth (y m : ℕ) : ℕ :=
  ((List.range (m - 1)).map (fun i => daysInMonth y (i + 1))).sum

/-- Days strictly before January 1 of year `y` in the proleptic Gregorian
calendar (`datetime`'s `_days_before_year`): `365·(y-1) + ⌊(y-1)/4⌋ -
⌊(y-1)/100⌋ + ⌊(y-1)/400⌋`, rearranged so the ℕ-subtraction never truncates. -/
def daysBeforeYear (y : ℕ) : ℕ :=
  365 * (y - 1) + (y - 1) / 4 + (y - 1) / 400 - (y - 1) / 100

/-- `date.toordinal()`: `0001-01-01` has ordinal 1. -/
def Date.toOrd (d : Date) : ℕ :=
  daysBeforeYear d.year + daysBeforeMonth d.year d.month + d.day

/-- A structurally valid date: fields in range (years start at 1, as in
Python's `datetime`, but with no upper bound). -/
def Date.Valid (d : Date) : Prop :=
  1 ≤ d.year ∧ 1 ≤ d.month ∧ d.month ≤ 12 ∧ 1 ≤ d.day ∧ d.day ≤ daysInMonth d.year d.month

instance (d : Date) : Decidable d.Valid := by
  unfold Date.Valid
  infer_instance

def firstOfMonth (d : Date) : Date := ⟨d.year, d.month, 1⟩

/-- Embeds `dt.datetime(y, m, 1) + dt.timedelta(days=31)` for a month `1 ≤ m ≤ 12`:
every month has between 28 and 31 days, so the first of a month plus 31 days
always lands in the following month, on day `32 - daysInMonth y m ∈ [1, 4]`. -/
def addDays31 (y m : ℕ) : Date :=
  if m = 12 then ⟨y + 1, 1, 32 - daysInMonth y m⟩ else ⟨y, m + 1, 32 - daysInMonth y m⟩

/-- `total_days = (max(dates) - min(dates)).days` as a (possibly negative) integer. -/
def dateTotalDays (dates : List Date) : ℤ :=
  (Date.toOrd (pyMax dates) : ℤ) - (Date.toOrd (pyMin dates) : ℤ)

/-- `raw_interval = (total_days / 30.0) / max_ticks`. -/
def rawInterval (dates : List Date) (max_ticks : ℕ) : ℚ :=
  ((dateTotalDays dates : ℚ) / 30) / (max_ticks : ℚ)

/-- The `if`-ladder snapping `raw_interval` to `{1, 2, 3, 6, 12}` months. -/
def snapInterval (q : ℚ) : ℕ :=
  if q ≤ 1 then 1 else if q ≤ 2 then 2 else if q ≤ 3 then 3 else if q ≤ 6 then 6 else 12

/-- The loop's `end` anchor: the first day of the month after `max(dates)`'s month. -/
def dateEndAnchor (dates : List Date) : Date :=
  firstOfMonth (addDays31 (pyMax dates).year (pyMax dates).month)

/-- Linear month index `year * 12 + month`; on day-1 dates with months in
`[1, 12]`, comparing indices is the same as Python's lexicographic `datetime`
comparison (see `monthTicksAux`). -/
def monthIdx (y m : ℕ) : ℕ := y * 12 + m

/-- The tick-emission loop of `get_big_date_limits`:

```
ticks = []
current_tick = start
while current_tick <= end:
    ticks.append(current_tick.date())
    month = current_tick.month + interval_months
    year = current_tick.year + (month - 1) // 12
    month = (month - 1) % 12 + 1
    current_tick = dt.datetime(year, month, 1)
```

Both `current_tick` and `end` are always the first of a month with month in
`[1, 12]`, so the Python comparison `current_tick <= end` is exactly the
month-index comparison used as the guard here.  The interval is passed as its
predecessor `iP` (`interval_months = iP + 1`) so that every step strictly
increases the month index, which gives termination. -/
def monthTicksAux (iP endIdx y m : ℕ) : List Date :=
  if y * 12 + m ≤ endIdx then
    ⟨y, m, 1⟩ ::
      monthTicksAux iP endIdx (y + (m + (iP + 1) - 1) / 12) ((m + (iP + 1) - 1) % 12 + 1)
  else []
termination_by endIdx + 1 - (y * 12 + m)
decreasing_by
  omega

/-- Embeds `get_big_date_limits` (`total_days <= 0` raises `ValueError`). -/
def get_big_date_limits (dates : List Date) (max_ticks : ℕ) : Except String (List Date) :=
  if dateTotalDays dates ≤ 0 then .error "Dates must have a positive range."
  else
    .ok (monthTicksAux (snapInterval (rawInterval dates max_ticks) - 1)
      (monthIdx (dateEndAnchor dates).year (dateEndAnchor dates).month)
      (pyMin dates).year (pyMin dates).month)

theorem daysInMonth_bounds (y m : ℕ) : 28 ≤ daysInMonth y m ∧ daysInMonth y m ≤ 31 := by
  unfold daysInMonth
  split_ifs <;> omega

theorem daysBeforeMonth_succ (y : ℕ) {m : ℕ} (hm : 1 ≤ m) :
    daysBeforeMonth y (m + 1) = daysBeforeMonth y m + daysInMonth y m := by
  unfold daysBeforeMonth
  have h1 : m + 1 - 1 = (m - 1) + 1 := by omega
  rw [h1, List.range_succ, List.map_append, List.sum_append]
  have h2 : m - 1 + 1 = m := by omega
  simp [h2]

theorem daysBeforeMonth_mono (y : ℕ) {m m' : ℕ} (h : m ≤ m') :
    daysBeforeMonth y m ≤ daysBeforeMonth y m' := by
  unfold daysBeforeMonth
  have hsub : m - 1 ≤ m' - 1 := by omega
  obtain ⟨k, hk⟩ := Nat.le.dest hsub
  rw [← hk, List.range_add, List.map_append, List.sum_append]
  omega

/-- Total days of year `y` as the sum over its twelve months. -/
theorem daysBeforeMonth_year (y : ℕ) :
    daysBeforeMonth y 13 = if isLeap y then 366 else 365 := by
  by_cases h : isLeap y <;>
    simp [daysBeforeMonth, daysInMonth, h, List.range_succ]

theorem daysBeforeYear_succ {y : ℕ} (hy : 1 ≤ y) :
    daysBeforeYear (y + 1) = daysBeforeYear y + (if isLeap y then 366 else 365) := by
  unfold daysBeforeYear isLeap
  have he : y + 1 - 1 = (y - 1) + 1 := by omega
  rw [he, Nat.succ_div, Nat.succ_div, Nat.succ_div]
  have h1 : y - 1 + 1 = y := by omega
  rw [h1]
  split_ifs <;> omega

theorem daysBeforeYear_mono {y y' : ℕ} (hy : 1 ≤ y) (h : y ≤ y') :
    daysBeforeYear y ≤ daysBeforeYear y' := by
  obtain ⟨k, rfl⟩ := Nat.le.dest h
  clear h
  induction k with
  | zero => simp
  | succ k ih =>
    have hstep := daysBeforeYear_succ (show 1 ≤ y + k by omega)
    rw [show y + (k + 1) = (y + k) + 1 by omega, hstep]
    split_ifs <;> omega

/-- Strict monotonicity of the ordinal with respect to the lexicographic order,
on valid dates. -/
theorem Date.toOrd_lt_of_lt {a b : Date} (ha : a.Valid) (hb : b.Valid) (h : a < b) :
    a.toOrd < b.toOrd := by
  obtain ⟨hay, ham1, ham2, had1, had2⟩ := ha
  obtain ⟨hby, hbm1, hbm2, hbd1, hbd2⟩ := hb
  rcases Date.lt_def.mp h with hy | ⟨hy, hm | ⟨hm, hd⟩⟩
  · -- a.year < b.year
    have h1 : a.toOrd ≤ daysBeforeYear a.year + daysBeforeMonth a.year 13 := by
      unfold Date.toOrd
      have hstep : daysBeforeMonth a.year (a.month + 1) =
          daysBeforeMonth a.year a.month + daysInMonth a.year a.month :=
        daysBeforeMonth_succ a.year ham1
      have hmono : daysBeforeMonth a.year (a.month + 1) ≤ daysBeforeMonth a.year 13 :=
        daysBeforeMonth_mono a.year (by omega)
      omega
    have h2 : daysBeforeYear a.year + daysBeforeMonth a.year 13 = daysBeforeYear (a.year + 1) := by
      rw [daysBeforeYear_succ hay, daysBeforeMonth_year]
    have h3 : daysBeforeYear (a.year + 1) ≤ daysBeforeYear b.year :=
      daysBeforeYear_mono (by omega) (by omega)
    have h4 : daysBeforeYear b.year < b.toOrd := by
      unfold Date.toOrd
      omega
    omega
  · -- same year, a.month < b.month
    unfold Date.toOrd
    rw [hy]
    have hstep : daysBeforeMonth b.year (a.month + 1) =
        daysBeforeMonth b.year a.month + daysInMonth b.year a.month :=
      daysBeforeMonth_succ b.year ham1
    have hmono : daysBeforeMonth b.year (a.month + 1) ≤ daysBeforeMonth b.year b.month :=
      daysBeforeMonth_mono b.year (by omega)
    have hdim : a.day ≤ daysInMonth b.year a.month := hy ▸ had2
    omega
  · -- same year and month, a.day < b.day
    unfold Date.toOrd
    rw [hy, hm]
    omega

theorem Date.toOrd_pos {a : Date} (ha : a.Valid) : 1 ≤ a.toOrd := by
  obtain ⟨h1, h2, h3, h4, h5⟩ := ha
  unfold Date.toOrd
  omega

/-- On dates with months in `[1, 12]`, the lexicographic order implies the
month-index order. -/
theorem monthIdx_le_of_le {a b : Date}
    (ha1 : 1 ≤ a.month) (ha2 : a.month ≤ 12) (hb1 : 1 ≤ b.month) (hb2 : b.month ≤ 12)
    (h : a ≤ b) : monthIdx a.year a.month ≤ monthIdx b.year b.month := by
  unfold monthIdx
  rcases Date.le_def.mp h with hy | ⟨hy, hm | ⟨hm, _⟩⟩ <;> omega

/-- The date `⟨y, m, 1⟩` whose month index (`y * 12 + m`, `1 ≤ m ≤ 12`) is `idx`. -/
def idxDate (idx : ℕ) : Date := ⟨(idx - 1) / 12, (idx - 1) % 12 + 1, 1⟩

theorem idxDate_monthIdx {y m : ℕ} (h1 : 1 ≤ m) (h2 : m ≤ 12) :
    idxDate (y * 12 + m) = ⟨y, m, 1⟩ := by
  unfold idxDate
  have hy : (y * 12 + m - 1) / 12 = y := by omega
  have hm : (y * 12 + m - 1) % 12 + 1 = m := by omega
  rw [hy, hm]

/-- Closed form of the tick-emission loop: an arithmetic progression of month
indices with stride `iP + 1`, starting at `y * 12 + m` and staying `≤ endIdx`. -/
theorem monthTicksAux_closed (iP endIdx : ℕ) :
    ∀ y m, 1 ≤ m → m ≤ 12 →
      monthTicksAux iP endIdx y m =
        (List.range (if y * 12 + m ≤ endIdx then (endIdx - (y * 12 + m)) / (iP + 1) + 1 else 0)).map
          (fun k => idxDate (y * 12 + m + k * (iP + 1))) := by
  intro y m
  induction y, m using monthTicksAux.induct iP endIdx with
  | case1 y m hle ih =>
    intro hm1 hm2
    have hm'1 : 1 ≤ (m + (iP + 1) - 1) % 12 + 1 := by omega
    have hm'2 : (m + (iP + 1) - 1) % 12 + 1 ≤ 12 := by omega
    have hidx' : (y + (m + (iP + 1) - 1) / 12) * 12 + ((m + (iP + 1) - 1) % 12 + 1) =
        y * 12 + m + (iP + 1) := by omega
    rw [monthTicksAux, if_pos hle, if_pos hle, ih hm'1 hm'2, hidx']
    rw [List.range_succ_eq_map, List.map_cons, List.map_map]
    have hhead : idxDate (y * 12 + m + 0 * (iP + 1)) = ⟨y, m, 1⟩ := by
      rw [show y * 12 + m + 0 * (iP + 1) = y * 12 + m by ring]
      exact idxDate_monthIdx hm1 hm2
    rw [hhead]
    congr 1
    by_cases hnext : y * 12 + m + (iP + 1) ≤ endIdx
    · rw [if_pos hnext]
      have hn : (endIdx - (y * 12 + m)) / (iP + 1) =
          (endIdx - (y * 12 + m + (iP + 1))) / (iP + 1) + 1 := by
        have hsplit : endIdx - (y * 12 + m) = (endIdx - (y * 12 + m + (iP + 1))) + (iP + 1) := by
          omega
        rw [hsplit, Nat.add_div_right _ (by omega)]
      rw [hn]
      apply List.map_congr_left
      intro k _
      simp only [Function.comp_apply]
      congr 1
      simp only [Nat.succ_eq_add_one]
      ring
    · rw [if_neg hnext]
      have hn : (endIdx - (y * 12 + m)) / (iP + 1) = 0 := Nat.div_eq_of_lt (by omega)
      rw [hn]
      simp
  | case2 y m hgt =>
    intro hm1 hm2
    rw [monthTicksAux, if_neg hgt, if_neg hgt]
    simp

/-- Month index of the loop's start anchor (first of `min(dates)`'s month). -/
def dateStartIdx (dates : List Date) : ℕ := monthIdx (pyMin dates).year (pyMin dates).month

/-- Month index of the loop's `end` anchor. -/
def dateEndIdx (dates : List Date) : ℕ :=
  monthIdx (dateEndAnchor dates).year (dateEndAnchor dates).month

/-- The snapped month interval used by `get_big_date_limits`. -/
def dateInterval (dates : List Date) (max_ticks : ℕ) : ℕ :=
  snapInterval (rawInterval dates max_ticks)

theorem get_big_date_limits_error {dates : List Date} {mt : ℕ}
    (h : dateTotalDays dates ≤ 0) :
    get_big_date_limits dates mt = .error "Dates must have a positive range." := by
  unfold get_big_date_limits
  rw [if_pos h]

theorem get_big_date_limits_ok {dates : List Date} {mt : ℕ}
    (h : 0 < dateTotalDays dates) :
    get_big_date_limits dates mt =
      .ok (monthTicksAux (dateInterval dates mt - 1) (dateEndIdx dates)
        (pyMin dates).year (pyMin dates).month) := by
  unfold get_big_date_limits dateInterval dateEndIdx
  rw [if_neg (by omega)]

theorem snapInterval_pos (q : ℚ) : 1 ≤ snapInterval q := by
  unfold snapInterval
  split_ifs <;> omega

theorem snapInterval_mem (q : ℚ) : snapInterval q ∈ ([1, 2, 3, 6, 12] : List ℕ) := by
  unfold snapInterval
  split_ifs <;> simp

theorem snapInterval_ge (q : ℚ) : q ≤ (snapInterval q : ℚ) ∨ snapInterval q = 12 := by
  unfold snapInterval
  split_ifs with h1 h2 h3 h4
  · exact Or.inl (by exact_mod_cast h1)
  · exact Or.inl (by exact_mod_cast h2)
  · exact Or.inl (by exact_mod_cast h3)
  · exact Or.inl (by exact_mod_cast h4)
  · exact Or.inr rfl

theorem snapInterval_min (q : ℚ) :
    ∀ c ∈ ([1, 2, 3, 6, 12] : List ℕ), q ≤ (c : ℚ) → snapInterval q ≤ c := by
  intro c hc hq
  unfold snapInterval
  fin_cases hc <;> split_ifs <;> first | rfl | omega | (exfalso; push_cast at hq; linarith)

/-- With `max(dates)`'s month in range, the `end` anchor is exactly one month
after `max(dates)`'s month. -/
theorem dateEndIdx_eq (dates : List Date) :
    dateEndIdx dates = monthIdx (pyMax dates).year (pyMax dates).month + 1 := by
  unfold dateEndIdx dateEndAnchor firstOfMonth addDays31 monthIdx
  by_cases hm : (pyMax dates).month = 12
  · rw [if_pos hm]
    simp [hm]
    omega
  · rw [if_neg hm]
    simp
    omega

/-! ## Value domain and dispatching `get_limits`

`get_limits` inspects element types at runtime: all date-like values go to the
date algorithm, all int/float values to the numeric one, anything else (a
non-numeric, non-date element, or a mix of dates and numbers) raises.  `Value`
is the corresponding closed sum; `other` stands for any element that is
neither numeric nor date-like. -/

inductive Value where
  | num (q : ℚ)
  | date (d : Date)
  | other (tag : ℕ)
  deriving DecidableEq, Repr

/-- `isinstance(v, dt.datetime) or isinstance(v, dt.date)`. -/
def Value.isDate : Value → Bool
  | .date _ => true
  | _ => false

/-- `isinstance(v, int) or isinstance(v, float)`. -/
def Value.isNum : Value → Bool
  | .num _ => true
  | _ => false

def numValues (l : List Value) : List ℚ :=
  l.filterMap (fun v => match v with | .num q => some q | _ => none)

def dateValues (l : List Value) : List Date :=
  l.filterMap (fun v => match v with | .date d => some d | _ => none)

/-- Embeds `get_limits`:

```
def get_limits(values, max_ticks):
    if values is None or not isinstance(values, collections.abc.Iterable) or len(set(values)) <= 1:
        raise ValueError("Values must be a non-empty iterable with at least two unique elements.")
    if all(isinstance(v, dt.datetime) or isinstance(v, dt.date) for v in values):
        return get_big_date_limits(values, max_ticks)
    elif all(isinstance(v, int) or isinstance(v, float) for v in values):
        return get_numeric_limits(values, max_ticks)
    else:
        raise ValueError("Invalid numeric data")
```

`values` is always a list here, so the `None`/non-iterable guard cannot fire;
`len(set(values)) <= 1` is `values.dedup.length ≤ 1`.  The branch functions
receive the same elements, projected into their own domain. -/
def get_limits (values : List Value) (max_ticks : ℕ) : Except String (List Value) :=
  if values.dedup.length ≤ 1 then
    .error "Values must be a non-empty iterable with at least two unique elements."
  else if values.all (fun v => v.isDate) then
    (get_big_date_limits (dateValues values) max_ticks).map (List.map Value.date)
  else if values.all (fun v => v.isNum) then
    (get_numeric_limits (numValues values) max_ticks).map (List.map Value.num)
  else .error "Invalid numeric data"

/-! ## Primitive tree (`Shape` subclasses)

Every primitive renders to a list of markup fragments.  The byte-level
templates (`'<line x1=.../>'` etc.) are abstracted as the constructors of
`Frag`, carrying exactly the interpolated data in template order; style maps
are insertion-ordered association lists. -/

abbrev StyleMap := List (String × String)

structure Point where
  x : ℚ
  y : ℚ
  deriving DecidableEq, Repr

/-- One SVG markup fragment, one constructor per template. -/
inductive Frag where
  | line (x1 y1 x2 y2 : ℚ) (styles : StyleMap)
  | circle (x y r : ℚ) (styles : StyleMap)
  | text (x y : ℚ) (content : String) (styles : StyleMap)
  | path (points : List Point) (styles : StyleMap)
  deriving DecidableEq, Repr

/-- `Line(x_position, y_position, width, height, styles)`: start point plus extents. -/
structure LineS where
  x : ℚ
  y : ℚ
  w : ℚ
  h : ℚ
  styles : StyleMap
  deriving DecidableEq, Repr

structure CircleS where
  x : ℚ
  y : ℚ
  r : ℚ
  styles : StyleMap
  deriving DecidableEq, Repr

structure TextS where
  x : ℚ
  y : ℚ
  content : String
  styles : StyleMap
  deriving DecidableEq, Repr

/-- `SimpleLineSeries`: the `position` field (`points[0]`) is not used in
rendering and is dropped; its `points[0]` IndexError is modelled in
`simpleLineSeriesInit`. -/
structure SeriesS where
  points : List Point
  styles : StyleMap
  deriving DecidableEq, Repr

structure LegendS where
  lines : List LineS
  texts : List TextS
  deriving DecidableEq, Repr

structure AxisS where
  posx : ℚ
  posy : ℚ
  length : ℚ
  limits : List Value
  axis_line : Option LineS
  tick_lines : List LineS
  tick_text : List TextS
  grid_lines : List LineS
  deriving DecidableEq, Repr

def LineS.get_element_list (l : LineS) : List Frag :=
  [.line l.x l.y (l.x + l.w) (l.y + l.h) l.styles]

def CircleS.get_element_list (c : CircleS) : List Frag := [.circle c.x c.y c.r c.styles]

def TextS.get_element_list (t : TextS) : List Frag := [.text t.x t.y t.content t.styles]

def SeriesS.get_element_list (s : SeriesS) : List Frag := [.path s.points s.styles]

/-- `LineLegend.get_element_list`: swatch lines, then labels. -/
def LegendS.get_element_list (l : LegendS) : List Frag :=
  l.lines.flatMap LineS.get_element_list ++ l.texts.flatMap TextS.get_element_list

/-- `Axis.get_element_list`: `safe_get_element_list(self.axis_line) +
collapse_element_list(self.tick_lines) + collapse_element_list(self.tick_text) +
collapse_element_list(self.grid_lines)`. -/
def AxisS.get_element_list (a : AxisS) : List Frag :=
  (match a.axis_line with | none => [] | some l => l.get_element_list) ++
    a.tick_lines.flatMap LineS.get_element_list ++
    a.tick_text.flatMap TextS.get_element_list ++
    a.grid_lines.flatMap LineS.get_element_list

/-- A free-standing drawable, as added through `add_custom_element`. -/
inductive Prim where
  | line (l : LineS)
  | circle (c : CircleS)
  | text (t : TextS)
  deriving DecidableEq, Repr

def Prim.get_element_list : Prim → List Frag
  | .line l => l.get_element_list
  | .circle c => c.get_element_list
  | .text t => t.get_element_list

structure ChartS where
  height : ℚ
  width : ℚ
  x_axis : Option AxisS
  y_axis : Option AxisS
  legend : Option LegendS
  series : List (String × SeriesS)
  custom_elements : List Prim
  deriving DecidableEq, Repr

/-- One entry of the `targets` list of `Chart.get_element_list`. -/
inductive Target where
  | axis (a : AxisS)
  | legend (l : LegendS)
  | series (s : SeriesS)
  | prim (p : Prim)

def Target.get_element_list : Target → List Frag
  | .axis a => a.get_element_list
  | .legend l => l.get_element_list
  | .series s => s.get_element_list
  | .prim p => p.get_element_list

/-- `Chart.get_element_list`:

```
target_names = ['x_axis', 'y_axis', 'legend']
targets = [getattr(self, target) for target in target_names if getattr(self, target) is not None]
targets.extend(self.series[s] for s in self.series)
targets.extend(self.custom_elements)
return [e for t in targets for e in t.get_element_list()]
```

Dict iteration (`for s in self.series`) is in insertion order. -/
def ChartS.get_element_list (c : ChartS) : List Frag :=
  (([c.x_axis.map Target.axis, c.y_axis.map Target.axis, c.legend.map Target.legend].filterMap id)
      ++ c.series.map (fun kv => Target.series kv.2)
      ++ c.custom_elements.map Target.prim).flatMap Target.get_element_list

/-! ## Coordinate mapping -/

/-- `Axis.proportion_of_range` on a numeric axis:
`(value - min(limits)) / (max(limits) - min(limits))`. -/
def AxisS.proportion_of_range (a : AxisS) (v : ℚ) : ℚ :=
  (v - pyMin (numValues a.limits)) /
    (pyMax (numValues a.limits) - pyMin (numValues a.limits))

/-- `Axis.proportion_of_range` on a date axis: Python subtracts `date`s to
`timedelta`s and divides them, i.e. forms the exact ratio of ordinal
differences. -/
def AxisS.proportion_of_range_date (a : AxisS) (v : Date) : ℚ :=
  ((v.toOrd : ℚ) - ((pyMin (dateValues a.limits)).toOrd : ℚ)) /
    (((pyMax (dateValues a.limits)).toOrd : ℚ) - ((pyMin (dateValues a.limits)).toOrd : ℚ))

/-- `YAxis.get_positions`: pixel-space is inverted vertically. -/
def AxisS.get_positions_y (a : AxisS) (values : List ℚ) : List ℚ :=
  values.map (fun v => a.posy + a.length * (1 - a.proportion_of_range v))

/-- `SimpleXAxis.get_positions`: the i-th of N values maps to
`x + i * length / (N - 1)`, ignoring the values themselves. -/
def AxisS.simple_get_positions_x (a : AxisS) (x_values : List Value) : List ℚ :=
  (List.range x_values.length).map
    (fun i => a.posx + (i : ℚ) * a.length / ((x_values.length : ℚ) - 1))

/-! ## Axis, grid and chart construction -/

def default_axis_styles : StyleMap := [("stroke", "#2e2e2c")]

def xaxis_tick_text_styles : StyleMap :=
  [("text-anchor", "middle"), ("dominant-baseline", "hanging")]

def yaxis_tick_text_styles : StyleMap :=
  [("text-anchor", "end"), ("dominant-baseline", "middle")]

/-- Embeds `YAxis.__init__` (including the `Axis.__init__` it calls): computes
the limits (which may raise), then builds the baseline, one tick line and one
tick label per limit entry at
`height_offset = (n - 1 - i) * length / (n - 1) + y`.  For `n = 1` Python
would raise `ZeroDivisionError`; the totalised `ℚ` division returns 0 there
(no claim exercises that case). -/
def yAxisInit (x_position y_position : ℚ) (data_points : List Value) (axis_length : ℚ)
    (label_format : Value → String) (max_ticks : ℕ) (axis_styles : Option StyleMap)
    (tick_length : ℚ) : Except String AxisS := do
  let limits ← get_limits data_points max_ticks
  let styles := axis_styles.getD default_axis_styles
  let n := limits.length
  pure {
    posx := x_position
    posy := y_position
    length := axis_length
    limits := limits
    axis_line := some ⟨x_position, y_position, 0, axis_length, styles⟩
    tick_lines := (List.range n).map (fun i =>
      ⟨x_position - tick_length, ((n - 1 - i : ℕ) : ℚ) * axis_length / ((n : ℚ) - 1) + y_position,
        tick_length, 0, styles⟩)
    tick_text := limits.enum.map (fun im =>
      ⟨x_position - 2 * tick_length,
        ((n - 1 - im.1 : ℕ) : ℚ) * axis_length / ((n : ℚ) - 1) + y_position,
        label_format im.2, yaxis_tick_text_styles⟩)
    grid_lines := [] }

/-- Embeds `XAxis.__init__` (which `SimpleXAxis` inherits unchanged): ticks at
`width_offset = i * length / (n - 1) + x`. -/
def xAxisInit (x_position y_position : ℚ) (data_points : List Value) (axis_length : ℚ)
    (label_format : Value → String) (max_ticks : ℕ) (axis_styles : Option StyleMap)
    (tick_length : ℚ) : Except String AxisS := do
  let limits ← get_limits data_points max_ticks
  let styles := axis_styles.getD default_axis_styles
  let n := limits.length
  pure {
    posx := x_position
    posy := y_position
    length := axis_length
    limits := limits
    axis_line := some ⟨x_position, y_position, axis_length, 0, styles⟩
    tick_lines := (List.range n).map (fun i =>
      ⟨(i : ℚ) * axis_length / ((n : ℚ) - 1) + x_position, y_position, 0, tick_length, styles⟩)
    tick_text := limits.enum.map (fun im =>
      ⟨(im.1 : ℚ) * axis_length / ((n : ℚ) - 1) + x_position, y_position + 2 * tick_length,
        label_format im.2, xaxis_tick_text_styles⟩)
    grid_lines := [] }

def path_default_styles : StyleMap := [("stroke-width", "2")]

/-- Embeds `SimpleLineSeries.__init__`: `points[0]` raises `IndexError` on an
empty point list. -/
def simpleLineSeriesInit (points : List Point) : Except String SeriesS :=
  match points with
  | [] => .error "IndexError: list index out of range"
  | _ :: _ => .ok ⟨points, path_default_styles⟩

/-- Python `dict` insertion: an existing key keeps its position and gets the
new value; a new key is appended. -/
def dictInsert {α : Type} (k : String) (v : α) : List (String × α) → List (String × α)
  | [] => [(k, v)]
  | (k', v') :: rest => if k' = k then (k, v) :: rest else (k', v') :: dictInsert k v rest

def line_colour_defaults : List String := ["green", "red", "blue"]

/-- The stroke-colour loop of `SimpleLineChart.__init__`:

```
for index, series in enumerate(self.series):
    self.series[series].styles['stroke'] = self.__line_colour_defaults__[index]
```

`__line_colour_defaults__[index]` raises `IndexError` for `index ≥ 3`. -/
def assignColours : ℕ → List (String × SeriesS) → Except String (List (String × SeriesS))
  | _, [] => .ok []
  | i, (k, s) :: rest =>
    match line_colour_defaults.get? i with
    | none => .error "IndexError: list index out of range"
    | some c =>
        (assignColours (i + 1) rest).map
          (fun rest' => (k, ⟨s.points, dictInsert "stroke" c s.styles⟩) :: rest')

/-- Embeds `SimpleLineChart.__init__`:

```
series_names = y_names if y_names is not None else ['Series {0}'.format(range(len(y_values)))]
all_y_values = [v for series in y_values for v in series]
self.y_axis = YAxis(x_position=x_margin, y_position=y_margin, data_points=all_y_values, ...)
self.x_axis = SimpleXAxis(x_position=x_margin, y_position=height - y_margin, data_points=x_values, ...)
self.series = {name: SimpleLineSeries([Point(x, y) for x, y in zip(...)]) for name, y_value in zip(series_names, y_values)}
for index, series in enumerate(self.series): ...
```

`'Series {0}'.format(range(len(y_values)))` stringifies the *range object*,
producing the literal `'Series range(0, N)'`. -/
def simpleLineChart (x_values : List Value) (y_values : List (List ℚ))
    (y_names : Option (List String)) (x_max_ticks y_max_ticks : ℕ)
    (x_margin y_margin height width : ℚ)
    (x_labels y_labels : Value → String) : Except String ChartS := do
  let series_names := y_names.getD ["Series range(0, " ++ toString y_values.length ++ ")"]
  let all_y_values := (y_values.flatten).map Value.num
  let y_axis ← yAxisInit x_margin y_margin all_y_values (height - 2 * y_margin) y_labels
    y_max_ticks none 5
  let x_axis ← xAxisInit x_margin (height - y_margin) x_values (width - 2 * x_margin) x_labels
    x_max_ticks none 5
  let built ← (series_names.zip y_values).mapM (fun kv =>
    (simpleLineSeriesInit (List.zipWith Point.mk (x_axis.simple_get_positions_x x_values)
      (y_axis.get_positions_y kv.2))).map (fun s => (kv.1, s)))
  let series ← assignColours 0 (built.foldl (fun d kv => dictInsert kv.1 kv.2 d) [])
  pure { height := height, width := width, x_axis := some x_axis, y_axis := some y_axis,
         legend := none, series := series, custom_elements := [] }

def default_major_grid_styles : StyleMap := [("stroke", "#2e2e2c")]

def default_minor_grid_styles : StyleMap := [("stroke", "#2e2e2c"), ("stroke-width", "0.4")]

/-- Embeds `Chart.add_y_grid`: for each non-first x-axis limit, appends to
`y_axis.grid_lines` one vertical major gridline at
`width_offset = (i + 1) * x_length / (n - 1) + y_axis.x` followed by
`minor_ticks` minors at `width_offset - j * minor_step`.  With a missing axis
Python raises `AttributeError`. -/
def add_y_grid (c : ChartS) (minor_ticks : ℕ)
    (major_grid_style minor_grid_style : Option StyleMap) : Except String ChartS :=
  match c.x_axis, c.y_axis with
  | some xa, some ya =>
    let major_style := major_grid_style.getD default_major_grid_styles
    let minor_style := minor_grid_style.getD default_minor_grid_styles
    let n := xa.limits.length
    let new_lines := (List.range (n - 1)).flatMap (fun i =>
      let width_offset := ((i : ℚ) + 1) * xa.length / ((n : ℚ) - 1) + ya.posx
      let minor_step := xa.length / ((n : ℚ) - 1) / ((minor_ticks : ℚ) + 1)
      (⟨width_offset, xa.posy - ya.length, 0, ya.length, major_style⟩ : LineS) ::
        (List.range minor_ticks).map (fun j =>
          ⟨width_offset - ((j : ℚ) + 1) * minor_step, xa.posy - ya.length, 0, ya.length,
            minor_style⟩))
    .ok { c with y_axis := some { ya with grid_lines := ya.grid_lines ++ new_lines } }
  | _, _ => .error "AttributeError"

/-- Embeds `Chart.add_x_grid`: for each non-first y-axis limit it appends one
horizontal major gridline to `x_axis.grid_lines`, but appends the minor
gridlines to `self.y_axis.grid_lines` — exactly as the source does (lines
305-313 append to `self.y_axis.grid_lines` inside `add_x_grid`). -/
def add_x_grid (c : ChartS) (minor_ticks : ℕ)
    (major_grid_style minor_grid_style : Option StyleMap) : Except String ChartS :=
  match c.x_axis, c.y_axis with
  | some xa, some ya =>
    let major_style := major_grid_style.getD default_major_grid_styles
    let minor_style := minor_grid_style.getD default_minor_grid_styles
    let n := ya.limits.length
    let majors := (List.range (n - 1)).map (fun i =>
      let height_offset := ((n - 2 - i : ℕ) : ℚ) * ya.length / ((n : ℚ) - 1) + xa.posy
      (⟨ya.posx, height_offset - ya.length, xa.length, 0, major_style⟩ : LineS))
    let minors := (List.range (n - 1)).flatMap (fun i =>
      let height_offset := ((n - 2 - i : ℕ) : ℚ) * ya.length / ((n : ℚ) - 1) + xa.posy
      let minor_step := ya.length / ((n : ℚ) - 1) / ((minor_ticks : ℚ) + 1)
      (List.range minor_ticks).map (fun j =>
        ⟨ya.posx, height_offset + ((j : ℚ) + 1) * minor_step - ya.length, xa.length, 0,
          minor_style⟩))
    .ok { c with x_axis := some { xa with grid_lines := xa.grid_lines ++ majors },
                 y_axis := some { ya with grid_lines := ya.grid_lines ++ minors } }
  | _, _ => .error "AttributeError"

/-! ## Supporting lemmas for the claims -/

theorem numValues_map_num (qs : List ℚ) : numValues (qs.map Value.num) = qs := by
  induction qs with
  | nil => rfl
  | cons q qs ih => simp [numValues] at ih ⊢; exact ih

theorem dateValues_map_date (ds : List Date) : dateValues (ds.map Value.date) = ds := by
  induction ds with
  | nil => rfl
  | cons d ds ih => simp [dateValues] at ih ⊢; exact ih

theorem num_injective : Function.Injective Value.num := by
  intro a b h
  cases h
  rfl

theorem date_injective : Function.Injective Value.date := by
  intro a b h
  cases h
  rfl

theorem all_isNum_map (qs : List ℚ) : (qs.map Value.num).all (fun v => v.isNum) = true := by
  simp [Value.isNum]

theorem all_isDate_map (ds : List Date) : (ds.map Value.date).all (fun v => v.isDate) = true := by
  simp [Value.isDate]

theorem not_all_isDate_map_num {qs : List ℚ} (h : qs ≠ []) :
    (qs.map Value.num).all (fun v => v.isDate) = false := by
  cases qs with
  | nil => exact absurd rfl h
  | cons q qs => simp [Value.isDate]

/-- `get_limits` on an all-numeric list reaches the numeric branch. -/
theorem get_limits_num {qs : List ℚ} {mt : ℕ} (h : 2 ≤ qs.dedup.length) :
    get_limits (qs.map Value.num) mt =
      (get_numeric_limits qs mt).map (List.map Value.num) := by
  have hd : (qs.map Value.num).dedup.length = qs.dedup.length := by
    rw [List.dedup_map_of_injective num_injective, List.length_map]
  have hne : qs ≠ [] := by
    intro hq
    rw [hq] at h
    simp at h
  unfold get_limits
  rw [if_neg (by omega), if_neg (by simp [not_all_isDate_map_num hne]), if_pos (all_isNum_map qs),
    numValues_map_num]

/-- `get_limits` on an all-date list reaches the date branch. -/
theorem get_limits_date {ds : List Date} {mt : ℕ} (h : 2 ≤ ds.dedup.length) :
    get_limits (ds.map Value.date) mt =
      (get_big_date_limits ds mt).map (List.map Value.date) := by
  have hd : (ds.map Value.date).dedup.length = ds.dedup.length := by
    rw [List.dedup_map_of_injective date_injective, List.length_map]
  unfold get_limits
  rw [if_neg (by omega), if_pos (all_isDate_map ds), dateValues_map_date]

theorem int_floor_eval {q : ℚ} {z : ℤ} (h1 : (z : ℚ) ≤ q) (h2 : q < z + 1) : ⌊q⌋ = z :=
  Int.floor_eq_iff.mpr ⟨h1, h2⟩

theorem int_ceil_eval {q : ℚ} {z : ℤ} (h1 : (z : ℚ) - 1 < q) (h2 : q ≤ z) : ⌈q⌉ = z :=
  Int.ceil_eq_iff.mpr ⟨h1, h2⟩

theorem numericLeader_eval_two {q : ℚ} {e : ℤ} (h1 : intLog10 q = e)
    (h2 : q ^ (1000 : ℕ) < (10 : ℚ) ^ (1000 * e + 301)) : numericLeader q = 2 := by
  unfold numericLeader
  rw [h1, if_pos h2]

theorem numericLeader_eval_five {q : ℚ} {e : ℤ} (h1 : intLog10 q = e)
    (h2 : ¬ q ^ (1000 : ℕ) < (10 : ℚ) ^ (1000 * e + 301))
    (h3 : q ^ (1000 : ℕ) < (10 : ℚ) ^ (1000 * e + 698)) : numericLeader q = 5 := by
  unfold numericLeader
  rw [h1, if_neg h2, if_pos h3]

theorem numericLeader_eval_ten {q : ℚ} {e : ℤ} (h1 : intLog10 q = e)
    (h3 : ¬ q ^ (1000 : ℕ) < (10 : ℚ) ^ (1000 * e + 698)) : numericLeader q = 10 := by
  have h2 : ¬ q ^ (1000 : ℕ) < (10 : ℚ) ^ (1000 * e + 301) := by
    intro hc
    apply h3
    calc q ^ (1000 : ℕ) < (10 : ℚ) ^ (1000 * e + 301) := hc
      _ ≤ (10 : ℚ) ^ (1000 * e + 698) := zpow_le_zpow_right₀ (by norm_num) (by omega)
  unfold numericLeader
  rw [h1, if_neg h2, if_neg h3]

theorem numericPad_eval {q L : ℚ} {e : ℤ} (h1 : intLog10 q = e)
    (h2 : numericLeader q = L) : numericPad q = L * (10 : ℚ) ^ e := by
  unfold numericPad
  rw [h1, h2]

/-- Assembled evaluation of `get_numeric_limits` at a concrete input. -/
theorem get_numeric_limits_eval {values : List ℚ} {mt : ℕ} {r p : ℚ} {s t : ℤ}
    {out : List ℚ}
    (h1 : rawPad values mt = r) (h2 : r ≠ 0) (h3 : numericPad |r| = p)
    (h4 : ⌊(0.95 : ℚ) * pyMin values / p⌋ = s)
    (h5 : ⌈(1.2 : ℚ) * pyMax values / p⌉ = t)
    (h6 : (List.range (t + 1 - s).toNat).map (fun (y : ℕ) => ((s + (y : ℤ) : ℤ) : ℚ) * p) = out) :
    get_numeric_limits values mt = .ok out := by
  have hr : rawPad values mt ≠ 0 := h1 ▸ h2
  rw [get_numeric_limits_ok hr]
  unfold numericStart numericStop
  rw [h1, h3, h4, h5, h6]

/-- **C1** (amended).  The bracketing invariant as claimed fails for inputs with
negative values (see `C1_counterexample`); it holds whenever all values are
nonnegative: for every such valid input and positive `maxTicks`,
`get_numeric_limits` succeeds and its ticks satisfy
`min(limits) ≤ min(values)` and `max(limits) ≥ max(values)`. -/
theorem C1_bracketing (values : List ℚ) (mt : ℕ) (hmt : 0 < mt)
    (hdist : 2 ≤ values.dedup.length) (hnonneg : ∀ v ∈ values, 0 ≤ v) :
    ∃ l, get_numeric_limits values mt = .ok l ∧ l ≠ [] ∧
      pyMin l ≤ pyMin values ∧ pyMax values ≤ pyMax l := by
  have hne : values ≠ [] := by
    intro hq
    rw [hq] at hdist
    simp at hdist
  have hlo0 : 0 ≤ pyMin values := hnonneg _ (pyMin_mem hne)
  have hlohi : pyMin values < pyMax values := pyMin_lt_pyMax hdist
  have h95 : (0.95 : ℚ) * pyMin values < (1.2 : ℚ) * pyMax values := by
    norm_num
    linarith
  have hmtq : (0 : ℚ) < (mt : ℚ) := by exact_mod_cast hmt
  have hraw : rawPad values mt ≠ 0 := by
    unfold rawPad
    exact div_ne_zero (by linarith) (ne_of_gt hmtq)
  refine ⟨_, get_numeric_limits_ok hraw, ?_, ?_, ?_⟩
  · intro hc
    have hzero : (numericStop values mt + 1 - numericStart values mt).toNat = 0 := by
      have hlen := congrArg List.length hc
      simp only [List.length_map, List.length_range, List.length_nil] at hlen
      exact hlen
    have hss := @numericStart_le_stop values mt (le_of_lt h95)
    omega
  · have hss := @numericStart_le_stop values mt (le_of_lt h95)
    have hmem : ((numericStart values mt : ℤ) : ℚ) * numericPad |rawPad values mt| ∈
        (List.range (numericStop values mt + 1 - numericStart values mt).toNat).map
          (fun (y : ℕ) => ((numericStart values mt + (y : ℤ) : ℤ) : ℚ) * numericPad |rawPad values mt|) := by
      apply List.mem_map.mpr
      refine ⟨0, List.mem_range.mpr (by omega), ?_⟩
      norm_num
    calc pyMin ((List.range (numericStop values mt + 1 - numericStart values mt).toNat).map
          (fun (y : ℕ) => ((numericStart values mt + (y : ℤ) : ℤ) : ℚ) * numericPad |rawPad values mt|))
        ≤ ((numericStart values mt : ℤ) : ℚ) * numericPad |rawPad values mt| := pyMin_le hmem
      _ ≤ (0.95 : ℚ) * pyMin values := numericStart_mul_le values mt
      _ ≤ pyMin values := by norm_num; linarith
  · have hss := @numericStart_le_stop values mt (le_of_lt h95)
    have hy0 : numericStart values mt + ((numericStop values mt - numericStart values mt).toNat : ℤ) =
        numericStop values mt := by omega
    have hmem : ((numericStop values mt : ℤ) : ℚ) * numericPad |rawPad values mt| ∈
        (List.range (numericStop values mt + 1 - numericStart values mt).toNat).map
          (fun (y : ℕ) => ((numericStart values mt + (y : ℤ) : ℤ) : ℚ) * numericPad |rawPad values mt|) := by
      apply List.mem_map.mpr
      refine ⟨(numericStop values mt - numericStart values mt).toNat,
        List.mem_range.mpr (by omega), ?_⟩
      rw [hy0]
    calc pyMax values
        ≤ (1.2 : ℚ) * pyMax values := by
          norm_num
          linarith
      _ ≤ ((numericStop values mt : ℤ) : ℚ) * numericPad |rawPad values mt| :=
          le_numericStop_mul values mt
      _ ≤ pyMax ((List.range (numericStop values mt + 1 - numericStart values mt).toNat).map
          (fun (y : ℕ) => ((numericStart values mt + (y : ℤ) : ℤ) : ℚ) * numericPad |rawPad values mt|)) :=
          le_pyMax hmem

/-- **C1** (counterexample).  The claim's bracketing invariant fails as stated:
`get_numeric_limits([-100, 100], 100)` returns ticks `[-95, -90, …, 120]`,
whose minimum `-95` is strictly greater than `min(values) = -100`. -/
theorem C1_counterexample :
    ∃ l, get_numeric_limits [-100, 100] 100 = .ok l ∧ l ≠ [] ∧
      ¬ pyMin l ≤ pyMin ([-100, 100] : List ℚ) := by
  have hmin : pyMin ([-100, 100] : List ℚ) = -100 := by
    norm_num [pyMin, min_def]
  have hmax : pyMax ([-100, 100] : List ℚ) = 100 := by
    norm_num [pyMax, max_def]
  have hraw : rawPad [-100, 100] 100 = 43 / 20 := by
    unfold rawPad
    rw [hmin, hmax]
    norm_num
  have habs : |(43 / 20 : ℚ)| = 43 / 20 := by norm_num
  have hlog : intLog10 (43 / 20) = 0 :=
    intLog10_eq_of_ge_one (by norm_num) (by norm_num) (by norm_num)
  have hlead : numericLeader (43 / 20) = 5 :=
    numericLeader_eval_five hlog (by norm_num) (by norm_num)
  have hpad : numericPad |(43 / 20 : ℚ)| = 5 := by
    rw [habs, numericPad_eval hlog hlead]
    norm_num
  have hstart : ⌊(0.95 : ℚ) * pyMin ([-100, 100] : List ℚ) / 5⌋ = -19 := by
    rw [hmin]
    exact int_floor_eval (by norm_num) (by norm_num)
  have hstop : ⌈(1.2 : ℚ) * pyMax ([-100, 100] : List ℚ) / 5⌉ = 24 := by
    rw [hmax]
    exact int_ceil_eval (by norm_num) (by norm_num)
  refine ⟨_, get_numeric_limits_eval hraw (by norm_num) hpad hstart hstop rfl, ?_, ?_⟩
  · intro hc
    have hlen := congrArg List.length hc
    simp only [List.length_map, List.length_range, List.length_nil] at hlen
    omega
  · rw [hmin]
    intro hc
    have hne : (List.range ((24 : ℤ) + 1 - (-19)).toNat).map
        (fun (y : ℕ) => (((-19 : ℤ) + (y : ℤ) : ℤ) : ℚ) * 5) ≠ [] := by
      intro hz
      have hlen := congrArg List.length hz
      simp only [List.length_map, List.length_range, List.length_nil] at hlen
      omega
    have hmem := pyMin_mem hne
    obtain ⟨y, _, hval⟩ := List.mem_map.mp hmem
    have hge : (-95 : ℚ) ≤ pyMin ((List.range ((24 : ℤ) + 1 - (-19)).toNat).map
        (fun (y : ℕ) => (((-19 : ℤ) + (y : ℤ) : ℤ) : ℚ) * 5)) := by
      rw [← hval]
      have hy : (0 : ℚ) ≤ (y : ℚ) := Nat.cast_nonneg y
      push_cast
      linarith
    linarith

/-- **C1** (witness): the amended bracketing theorem at `values = [0, 10]`,
`maxTicks = 5`, where the ticks are `[0, 5, 10, 15]`. -/
theorem C1_bracketing_witness :
    (0 < 5 ∧ 2 ≤ ([0, 10] : List ℚ).dedup.length ∧ ∀ v ∈ ([0, 10] : List ℚ), 0 ≤ v) ∧
    (∃ l, get_numeric_limits [0, 10] 5 = .ok l ∧ l ≠ [] ∧
      pyMin l ≤ pyMin ([0, 10] : List ℚ) ∧ pyMax ([0, 10] : List ℚ) ≤ pyMax l) :=
  ⟨⟨by norm_num, by decide, by decide⟩,
    C1_bracketing [0, 10] 5 (by norm_num) (by decide) (by decide)⟩

theorem idxDate_lt {i1 i2 : ℕ} (h0 : 1 ≤ i1) (h : i1 < i2) : idxDate i1 < idxDate i2 := by
  unfold idxDate
  rw [Date.lt_def]
  simp only
  omega

/-- Master description of `get_big_date_limits` on a valid input: it succeeds,
and its output is the arithmetic month-index progression from the start anchor
with stride `dateInterval`, cut off at the end anchor. -/
theorem date_ticks_master (dates : List Date) (mt : ℕ)
    (hval : ∀ d ∈ dates, d.Valid) (hdist : 2 ≤ dates.dedup.length) :
    get_big_date_limits dates mt =
      .ok ((List.range ((dateEndIdx dates - dateStartIdx dates) / dateInterval dates mt + 1)).map
        (fun k => idxDate (dateStartIdx dates + k * dateInterval dates mt))) ∧
    dateStartIdx dates ≤ dateEndIdx dates ∧
    dateEndIdx dates = monthIdx (pyMax dates).year (pyMax dates).month + 1 := by
  have hne : dates ≠ [] := by
    intro hq
    rw [hq] at hdist
    simp at hdist
  have hminval : (pyMin dates).Valid := hval _ (pyMin_mem hne)
  have hmaxval : (pyMax dates).Valid := hval _ (pyMax_mem hne)
  have hlt : pyMin dates < pyMax dates := pyMin_lt_pyMax hdist
  have hord : (pyMin dates).toOrd < (pyMax dates).toOrd :=
    Date.toOrd_lt_of_lt hminval hmaxval hlt
  have hspan : 0 < dateTotalDays dates := by
    unfold dateTotalDays
    omega
  have hm1 : 1 ≤ (pyMin dates).month := hminval.2.1
  have hm2 : (pyMin dates).month ≤ 12 := hminval.2.2.1
  have hi1 : 1 ≤ dateInterval dates mt := snapInterval_pos _
  have hstart_le : dateStartIdx dates ≤ dateEndIdx dates := by
    have hidx := monthIdx_le_of_le hm1 hm2 hmaxval.2.1 hmaxval.2.2.1 (pyMin_le_pyMax hne)
    rw [dateEndIdx_eq]
    unfold dateStartIdx
    omega
  refine ⟨?_, hstart_le, dateEndIdx_eq dates⟩
  rw [get_big_date_limits_ok hspan,
    monthTicksAux_closed (dateInterval dates mt - 1) (dateEndIdx dates)
      (pyMin dates).year (pyMin dates).month hm1 hm2]
  have hip : dateInterval dates mt - 1 + 1 = dateInterval dates mt := by omega
  have hguard : monthIdx (pyMin dates).year (pyMin dates).month ≤ dateEndIdx dates := hstart_le
  unfold monthIdx at hguard
  rw [if_pos hguard, hip]
  rfl

theorem chain_lt_of_progression {n stride base : ℕ} (hb : 1 ≤ base) (hs : 1 ≤ stride) :
    List.Chain' (· < ·) ((List.range n).map (fun k => idxDate (base + k * stride))) := by
  apply List.chain'_iff_get.mpr
  intro i hi
  simp only [List.length_map, List.length_range] at hi
  simp only [List.get_eq_getElem, List.getElem_map, List.getElem_range]
  apply idxDate_lt (by omega)
  have hmul : i * stride < (i + 1) * stride := by
    have h1 : i * stride + stride = (i + 1) * stride := by ring
    omega
  omega

theorem numeric_strict (values : List ℚ) (mt : ℕ) (hmt : 0 < mt)
    (h95 : (0.95 : ℚ) * pyMin values < (1.2 : ℚ) * pyMax values) :
    ∃ l, get_numeric_limits values mt = .ok l ∧
      List.Chain' (· < ·) l ∧ 2 ≤ l.length := by
  have hmtq : (0 : ℚ) < (mt : ℚ) := by exact_mod_cast hmt
  have hraw : rawPad values mt ≠ 0 := by
    unfold rawPad
    exact div_ne_zero (by linarith) (ne_of_gt hmtq)
  have hlt := @numericStart_lt_stop values mt h95
  have hpad : 0 < numericPad |rawPad values mt| := numericPad_pos _
  refine ⟨_, get_numeric_limits_ok hraw, ?_, ?_⟩
  · apply List.chain'_iff_get.mpr
    intro i hi
    simp only [List.length_map, List.length_range] at hi
    simp only [List.get_eq_getElem, List.getElem_map, List.getElem_range]
    apply mul_lt_mul_of_pos_right _ hpad
    have h1 : numericStart values mt + ((i : ℕ) : ℤ) <
        numericStart values mt + ((i + 1 : ℕ) : ℤ) := by
      push_cast
      omega
    exact_mod_cast h1
  · simp only [List.length_map, List.length_range]
    omega

/-- **C2** (amended).  As stated the claim fails (see `C2_counterexample`: an
all-negative numeric input can produce an empty tick list, and a date input
whose snapped interval overshoots the anchor span can produce a single tick).
It holds for numeric inputs with `0.95·min(values) < 1.2·max(values)` and for
valid date inputs whose snapped month interval is at most the month distance
from the start anchor to the end anchor: `get_limits` then returns a strictly
increasing sequence of length at least 2. -/
theorem C2_strictly_increasing :
    (∀ (qs : List ℚ) (mt : ℕ), 0 < mt → 2 ≤ qs.dedup.length →
      (0.95 : ℚ) * pyMin qs < (1.2 : ℚ) * pyMax qs →
      ∃ ticks : List ℚ, get_limits (qs.map Value.num) mt = .ok (ticks.map Value.num) ∧
        List.Chain' (· < ·) ticks ∧ 2 ≤ ticks.length) ∧
    (∀ (ds : List Date) (mt : ℕ), 0 < mt → (∀ d ∈ ds, d.Valid) → 2 ≤ ds.dedup.length →
      dateInterval ds mt ≤ dateEndIdx ds - dateStartIdx ds →
      ∃ ticks : List Date, get_limits (ds.map Value.date) mt = .ok (ticks.map Value.date) ∧
        List.Chain' (· < ·) ticks ∧ 2 ≤ ticks.length) := by
  constructor
  · intro qs mt hmt hdist h95
    obtain ⟨l, hok, hchain, hlen⟩ := numeric_strict qs mt hmt h95
    refine ⟨l, ?_, hchain, hlen⟩
    rw [get_limits_num hdist, hok]
    rfl
  · intro ds mt hmt hval hdist hspanI
    obtain ⟨hok, hle, _⟩ := date_ticks_master ds mt hval hdist
    have hne : ds ≠ [] := by
      intro hq
      rw [hq] at hdist
      simp at hdist
    have hminval : (pyMin ds).Valid := hval _ (pyMin_mem hne)
    have hbase : 1 ≤ dateStartIdx ds := by
      unfold dateStartIdx monthIdx
      have := hminval.2.1
      omega
    have hstride : 1 ≤ dateInterval ds mt := snapInterval_pos _
    refine ⟨(List.range ((dateEndIdx ds - dateStartIdx ds) / dateInterval ds mt + 1)).map
      (fun k => idxDate (dateStartIdx ds + k * dateInterval ds mt)), ?_,
      chain_lt_of_progression hbase hstride, ?_⟩
    · rw [get_limits_date hdist, hok]
      rfl
    · simp only [List.length_map, List.length_range]
      have : 1 ≤ (dateEndIdx ds - dateStartIdx ds) / dateInterval ds mt :=
        (Nat.one_le_div_iff (by omega)).mpr hspanI
      omega

/-- **C2** (counterexample).  The claim fails as stated: the valid numeric
input `[-100, -90]` with `maxTicks = 10` makes `get_limits` return the *empty*
tick list (the floor/ceil bracket is inverted for all-negative data), which is
neither of length ≥ 2 nor strictly increasing in any nonvacuous sense. -/
theorem C2_counterexample :
    get_limits [Value.num (-100), Value.num (-90)] 10 = .ok [] ∧
    2 ≤ ([Value.num (-100), Value.num (-90)] : List Value).dedup.length ∧
    ¬ 2 ≤ ([] : List Value).length := by
  refine ⟨?_, by decide, by decide⟩
  have hsplit : ([Value.num (-100), Value.num (-90)] : List Value) =
      ([-100, -90] : List ℚ).map Value.num := rfl
  have hdist : 2 ≤ ([-100, -90] : List ℚ).dedup.length := by decide
  have hmin : pyMin ([-100, -90] : List ℚ) = -100 := by
    norm_num [pyMin, min_def]
  have hmax : pyMax ([-100, -90] : List ℚ) = -90 := by
    norm_num [pyMax, max_def]
  have hraw : rawPad [-100, -90] 10 = -13 / 10 := by
    unfold rawPad
    rw [hmin, hmax]
    norm_num
  have habs : |(-13 / 10 : ℚ)| = 13 / 10 := by norm_num
  have hlog : intLog10 (13 / 10) = 0 :=
    intLog10_eq_of_ge_one (by norm_num) (by norm_num) (by norm_num)
  have hlead : numericLeader (13 / 10) = 2 :=
    numericLeader_eval_two hlog (by norm_num)
  have hpad : numericPad |(-13 / 10 : ℚ)| = 2 := by
    rw [habs, numericPad_eval hlog hlead]
    norm_num
  have hstart : ⌊(0.95 : ℚ) * pyMin ([-100, -90] : List ℚ) / 2⌋ = -48 := by
    rw [hmin]
    exact int_floor_eval (by norm_num) (by norm_num)
  have hstop : ⌈(1.2 : ℚ) * pyMax ([-100, -90] : List ℚ) / 2⌉ = -54 := by
    rw [hmax]
    exact int_ceil_eval (by norm_num) (by norm_num)
  have h6 : (List.range ((-54 : ℤ) + 1 - (-48)).toNat).map
      (fun (y : ℕ) => (((-48 : ℤ) + (y : ℤ) : ℤ) : ℚ) * 2) = [] := by
    rw [show ((-54 : ℤ) + 1 - (-48)) = -5 by norm_num]
    rfl
  have hok := get_numeric_limits_eval hraw (by norm_num) hpad hstart hstop h6
  rw [hsplit, get_limits_num hdist, hok]
  rfl

/-- **C2** (witness): the amended theorem's numeric branch at
`values = [0, 20]`, `maxTicks = 5` (ticks `[0, 5, 10, 15, 20, 25]`). -/
theorem C2_strictly_increasing_witness :
    ∃ ticks : List ℚ, get_limits (([0, 20] : List ℚ).map Value.num) 5 = .ok (ticks.map Value.num) ∧
      List.Chain' (· < ·) ticks ∧ 2 ≤ ticks.length :=
  C2_strictly_increasing.1 [0, 20] 5 (by norm_num) (by decide)
    (by norm_num [pyMin, pyMax, min_def, max_def])

/-- Ceiling base-10 logarithm on `ℕ` (least `k` with `n ≤ 10 ^ k`, for `n ≥ 1`),
fuel-based like `natLog10`. -/
def natClog10Aux : ℕ → ℕ → ℕ
  | 0, _ => 0
  | fuel + 1, n => if n ≤ 1 then 0 else natClog10Aux fuel ((n + 9) / 10) + 1

def natClog10 (n : ℕ) : ℕ := natClog10Aux n n

theorem natClog10Aux_bounds :
    ∀ (fuel n : ℕ), 2 ≤ n → n ≤ fuel →
      10 ^ (natClog10Aux fuel n - 1) < n ∧ n ≤ 10 ^ natClog10Aux fuel n ∧
        1 ≤ natClog10Aux fuel n := by
  intro fuel
  induction fuel with
  | zero => intro n h1 h2; omega
  | succ fuel ih =>
    intro n h1 h2
    rw [natClog10Aux, if_neg (by omega)]
    by_cases hle : n ≤ 10
    · have hm : (n + 9) / 10 = 1 := by omega
      rw [hm]
      have hz : ∀ f, natClog10Aux f 1 = 0 := by
        intro f
        cases f with
        | zero => rfl
        | succ f => rw [natClog10Aux, if_pos (by omega)]
      rw [hz fuel]
      simpa using ⟨by omega, by omega⟩
    · have hm2 : 2 ≤ (n + 9) / 10 := by omega
      have hmlt : (n + 9) / 10 < n := by omega
      obtain ⟨ihl, ihr, ihc⟩ := ih ((n + 9) / 10) hm2 (by omega)
      have h10m : 10 * ((n + 9) / 10) ≤ n + 9 := by omega
      have hn10m : n ≤ 10 * ((n + 9) / 10) := by omega
      refine ⟨?_, ?_, by omega⟩
      · have hstep : 10 ^ (natClog10Aux fuel ((n + 9) / 10) + 1 - 1) =
            10 * 10 ^ (natClog10Aux fuel ((n + 9) / 10) - 1) := by
          rw [Nat.add_sub_cancel, ← pow_succ']
          congr 1
          omega
        rw [hstep]
        omega
      · calc n ≤ 10 * ((n + 9) / 10) := hn10m
          _ ≤ 10 * 10 ^ natClog10Aux fuel ((n + 9) / 10) := by omega
          _ = 10 ^ (natClog10Aux fuel ((n + 9) / 10) + 1) := (pow_succ' 10 _).symm

theorem natClog10_bounds {n : ℕ} (h : 2 ≤ n) :
    10 ^ (natClog10 n - 1) < n ∧ n ≤ 10 ^ natClog10 n ∧ 1 ≤ natClog10 n :=
  natClog10Aux_bounds n n h (le_refl n)

/-- Modelled from the spec (claim C3's wording): the *floor* of the base-10
logarithm, `m = ⌊log10 q⌋`, as opposed to the code's truncation toward zero. -/
def floorLog10 (q : ℚ) : ℤ :=
  if 1 ≤ q then (natLog10 ⌊q⌋.toNat : ℤ) else -(natClog10 ⌈q⁻¹⌉.toNat : ℤ)

theorem floorLog10_spec {q : ℚ} (hq : 0 < q) :
    (10 : ℚ) ^ floorLog10 q ≤ q ∧ q < (10 : ℚ) ^ (floorLog10 q + 1) := by
  by_cases h1 : 1 ≤ q
  · have := intLog10_spec_ge_one h1
    unfold floorLog10
    unfold intLog10 at this
    rw [if_pos h1] at this ⊢
    exact this
  · push_neg at h1
    have hx : 1 < q⁻¹ := (one_lt_inv_iff₀).mpr ⟨hq, h1⟩
    have hx0 : (0 : ℚ) < q⁻¹ := by positivity
    have hceil2 : 2 ≤ ⌈q⁻¹⌉ := by
      have := Int.lt_ceil.mpr (show ((1 : ℤ) : ℚ) < q⁻¹ by exact_mod_cast hx)
      omega
    set n := ⌈q⁻¹⌉.toNat with hn
    have hn2 : 2 ≤ n := by omega
    have hncast : ((n : ℤ) : ℚ) = ((⌈q⁻¹⌉ : ℤ) : ℚ) := by
      rw [hn, Int.toNat_of_nonneg (by omega)]
    obtain ⟨hcl, hcu, hc1⟩ := natClog10_bounds hn2
    unfold floorLog10
    rw [if_neg (not_le.mpr h1)]
    rw [← hn]
    constructor
    · -- 10 ^ (-c) ≤ q  ⟺  q⁻¹ ≤ 10 ^ c
      have hinvle : q⁻¹ ≤ ((10 ^ natClog10 n : ℕ) : ℚ) := by
        calc q⁻¹ ≤ ((⌈q⁻¹⌉ : ℤ) : ℚ) := Int.le_ceil q⁻¹
          _ = ((n : ℤ) : ℚ) := hncast.symm
          _ ≤ ((10 ^ natClog10 n : ℕ) : ℚ) := by exact_mod_cast hcu
      have hp : (0 : ℚ) < ((10 ^ natClog10 n : ℕ) : ℚ) := by
        have : (0 : ℕ) < 10 ^ natClog10 n := Nat.pos_pow_of_pos _ (by norm_num)
        exact_mod_cast this
      have := (inv_le_inv₀ hp hx0).mpr hinvle
      rw [inv_inv] at this
      calc (10 : ℚ) ^ (-(natClog10 n : ℤ))
          = (((10 ^ natClog10 n : ℕ) : ℚ))⁻¹ := by
            rw [zpow_neg, zpow_natCast]
            push_cast
            norm_num
        _ ≤ q := this
    · -- q < 10 ^ (-c + 1)  ⟺  10 ^ (c - 1) < q⁻¹
      have hlt : ((10 ^ (natClog10 n - 1) : ℕ) : ℚ) < q⁻¹ := by
        have hnlt : (n : ℚ) - 1 < q⁻¹ := by
          have := Int.ceil_lt_add_one q⁻¹
          have hc : ((⌈q⁻¹⌉ : ℤ) : ℚ) < q⁻¹ + 1 := this
          calc (n : ℚ) - 1 = ((n : ℤ) : ℚ) - 1 := by push_cast; ring
            _ = ((⌈q⁻¹⌉ : ℤ) : ℚ) - 1 := by rw [hncast]
            _ < q⁻¹ := by linarith
        calc ((10 ^ (natClog10 n - 1) : ℕ) : ℚ)
            ≤ (n : ℚ) - 1 := by
              have hle : 10 ^ (natClog10 n - 1) + 1 ≤ n := hcl
              have h' : ((10 ^ (natClog10 n - 1) : ℕ) : ℚ) + 1 ≤ (n : ℚ) := by
                exact_mod_cast hle
              linarith
          _ < q⁻¹ := hnlt
      have hp : (0 : ℚ) < ((10 ^ (natClog10 n - 1) : ℕ) : ℚ) := by
        have : (0 : ℕ) < 10 ^ (natClog10 n - 1) := Nat.pos_pow_of_pos _ (by norm_num)
        exact_mod_cast this
      have := (inv_lt_inv₀ hx0 hp).mpr hlt
      rw [inv_inv] at this
      calc q < (((10 ^ (natClog10 n - 1) : ℕ) : ℚ))⁻¹ := this
        _ = (10 : ℚ) ^ (-(natClog10 n : ℤ) + 1) := by
            rw [show (-(natClog10 n : ℤ) + 1) = -((natClog10 n : ℤ) - 1) by ring,
              zpow_neg]
            congr 1
            rw [show ((natClog10 n : ℤ) - 1) = ((natClog10 n - 1 : ℕ) : ℤ) by omega,
              zpow_natCast]
            push_cast
            norm_num

theorem floorLog10_eq_of {q : ℚ} (hq : 0 < q) {e : ℤ}
    (hl : (10 : ℚ) ^ e ≤ q) (hu : q < (10 : ℚ) ^ (e + 1)) : floorLog10 q = e := by
  obtain ⟨h1, h2⟩ := floorLog10_spec hq
  by_contra hne
  rcases lt_or_gt_of_ne hne with hlt | hgt
  · have hle : (10 : ℚ) ^ (floorLog10 q + 1) ≤ (10 : ℚ) ^ e :=
      zpow_le_zpow_right₀ (by norm_num) (by omega)
    linarith
  · have hle : (10 : ℚ) ^ (e + 1) ≤ (10 : ℚ) ^ floorLog10 q :=
      zpow_le_zpow_right₀ (by norm_num) (by omega)
    linarith

/-- Modelled from the spec (claim C3's wording): leader snapped with
`m = floor(log10 |rawStep|)` and thresholds `0.301`, `0.698` on
`r = log10 |rawStep| - m`, written as the equivalent exact power comparisons. -/
def specLeader (q : ℚ) : ℚ :=
  if q ^ (1000 : ℕ) < (10 : ℚ) ^ (1000 * floorLog10 q + 301) then 2
  else if q ^ (1000 : ℕ) < (10 : ℚ) ^ (1000 * floorLog10 q + 698) then 5
  else 10

/-- Modelled from the spec (claim C3's wording): `step = leader · 10 ^ m`. -/
def specNiceStep (q : ℚ) : ℚ := specLeader q * (10 : ℚ) ^ floorLog10 q

theorem intLog10_eq_floorLog10_of_ge_one {q : ℚ} (h : 1 ≤ q) :
    intLog10 q = floorLog10 q := by
  unfold intLog10 floorLog10
  rw [if_pos h, if_pos h]

/-- Complete case characterisation of the code's snapped leader. -/
theorem numericLeader_iff (q : ℚ) :
    (numericLeader q = 2 ↔ q ^ (1000 : ℕ) < (10 : ℚ) ^ (1000 * intLog10 q + 301)) ∧
    (numericLeader q = 5 ↔ (¬ q ^ (1000 : ℕ) < (10 : ℚ) ^ (1000 * intLog10 q + 301) ∧
      q ^ (1000 : ℕ) < (10 : ℚ) ^ (1000 * intLog10 q + 698))) ∧
    (numericLeader q = 10 ↔ ¬ q ^ (1000 : ℕ) < (10 : ℚ) ^ (1000 * intLog10 q + 698)) := by
  have hmono : (10 : ℚ) ^ (1000 * intLog10 q + 301) ≤ (10 : ℚ) ^ (1000 * intLog10 q + 698) :=
    zpow_le_zpow_right₀ (by norm_num) (by omega)
  unfold numericLeader
  split_ifs with h1 h2
  · exact ⟨iff_of_true rfl h1,
      iff_of_false (by norm_num) (fun h => h.1 h1),
      iff_of_false (by norm_num) (fun h => h (lt_of_lt_of_le h1 hmono))⟩
  · exact ⟨iff_of_false (by norm_num) (fun h => h1 h),
      iff_of_true rfl ⟨h1, h2⟩,
      iff_of_false (by norm_num) (fun h => h h2)⟩
  · exact ⟨iff_of_false (by norm_num) (fun h => h1 h),
      iff_of_false (by norm_num) (fun h => h2 h.2),
      iff_of_true rfl h2⟩

/-- **C3** (amended).  Consecutive ticks of `get_numeric_limits` do differ by
exactly `leader * 10 ^ m` with the claimed `rawStep` formula and the claimed
`0.301` / `0.698` leader thresholds, but with
`m = int(log10 |rawStep|)` — Python's truncation toward zero — rather than the
claim's `m = floor(log10 |rawStep|)`.  The two agree when `|rawStep| ≥ 1` and
differ when `|rawStep| < 1` is not a power of ten (see `C3_counterexample`). -/
theorem C3_step_rule (values : List ℚ) (mt : ℕ) (hmt : 0 < mt)
    (hne : (0.95 : ℚ) * pyMin values ≠ (1.2 : ℚ) * pyMax values) :
    ∃ l, get_numeric_limits values mt = .ok l ∧
      rawPad values mt =
        ((1.2 : ℚ) * pyMax values - (0.95 : ℚ) * pyMin values) / (mt : ℚ) ∧
      (∀ i (h : i + 1 < l.length),
        l.get ⟨i + 1, h⟩ - l.get ⟨i, Nat.lt_of_succ_lt h⟩ =
          numericLeader |rawPad values mt| * (10 : ℚ) ^ intLog10 |rawPad values mt|) ∧
      (1 ≤ |rawPad values mt| →
        intLog10 |rawPad values mt| = floorLog10 |rawPad values mt|) ∧
      ((10 : ℚ) ^ floorLog10 |rawPad values mt| ≤ |rawPad values mt| ∧
        |rawPad values mt| < (10 : ℚ) ^ (floorLog10 |rawPad values mt| + 1)) ∧
      (numericLeader |rawPad values mt| = 2 ↔
        |rawPad values mt| ^ (1000 : ℕ) <
          (10 : ℚ) ^ (1000 * intLog10 |rawPad values mt| + 301)) ∧
      (numericLeader |rawPad values mt| = 5 ↔
        (¬ |rawPad values mt| ^ (1000 : ℕ) <
            (10 : ℚ) ^ (1000 * intLog10 |rawPad values mt| + 301) ∧
          |rawPad values mt| ^ (1000 : ℕ) <
            (10 : ℚ) ^ (1000 * intLog10 |rawPad values mt| + 698))) ∧
      (numericLeader |rawPad values mt| = 10 ↔
        ¬ |rawPad values mt| ^ (1000 : ℕ) <
          (10 : ℚ) ^ (1000 * intLog10 |rawPad values mt| + 698)) := by
  have hmtq : (0 : ℚ) < (mt : ℚ) := by exact_mod_cast hmt
  have hraw : rawPad values mt ≠ 0 := by
    unfold rawPad
    refine div_ne_zero ?_ (ne_of_gt hmtq)
    intro h0
    exact hne (by linarith)
  have habs : 0 < |rawPad values mt| := abs_pos.mpr hraw
  obtain ⟨hiff1, hiff2, hiff3⟩ := numericLeader_iff |rawPad values mt|
  refine ⟨_, get_numeric_limits_ok hraw, rfl, ?_,
    (fun h1 => intLog10_eq_floorLog10_of_ge_one h1), floorLog10_spec habs,
    hiff1, hiff2, hiff3⟩
  intro i h
  simp only [List.length_map, List.length_range] at h
  simp only [List.get_eq_getElem, List.getElem_map, List.getElem_range]
  have hcast : ((numericStart values mt + ((i + 1 : ℕ) : ℤ) : ℤ) : ℚ) =
      ((numericStart values mt + ((i : ℕ) : ℤ) : ℤ) : ℚ) + 1 := by
    push_cast
    ring
  rw [hcast]
  unfold numericPad
  ring

/-- **C3** (counterexample).  For `values = [0, 1]`, `maxTicks = 2` the raw step
is `0.6`: the code truncates `int(log10 0.6) = 0`, gets remainder `< 0.301`,
leader `2`, step `2`, and returns `[0, 2]`; the claim's
`m = floor(log10 0.6) = -1` gives remainder `≈ 0.778`, leader `10`, step `1`.
The returned consecutive difference `2` is not the claimed step `1`. -/
theorem C3_counterexample :
    2 ≤ ([0, 1] : List ℚ).dedup.length ∧
    get_numeric_limits [0, 1] 2 = .ok [0, 2] ∧
    specNiceStep |rawPad [0, 1] 2| = 1 ∧
    ([0, 2] : List ℚ).Chain' (fun a b => b - a = 2) ∧
    ¬ ([0, 2] : List ℚ).Chain' (fun a b => b - a = specNiceStep |rawPad [0, 1] 2|) := by
  have hmin : pyMin ([0, 1] : List ℚ) = 0 := by
    norm_num [pyMin, min_def]
  have hmax : pyMax ([0, 1] : List ℚ) = 1 := by
    norm_num [pyMax, max_def]
  have hraw : rawPad [0, 1] 2 = 3 / 5 := by
    unfold rawPad
    rw [hmin, hmax]
    norm_num
  have habs : |(3 / 5 : ℚ)| = 3 / 5 := by norm_num
  have hlog : intLog10 (3 / 5) = 0 :=
    intLog10_eq_of_lt_one (by norm_num) (by norm_num) (by norm_num) (by norm_num)
  have hlead : numericLeader (3 / 5) = 2 :=
    numericLeader_eval_two hlog (by norm_num)
  have hpad : numericPad |(3 / 5 : ℚ)| = 2 := by
    rw [habs, numericPad_eval hlog hlead]
    norm_num
  have hstart : ⌊(0.95 : ℚ) * pyMin ([0, 1] : List ℚ) / 2⌋ = 0 := by
    rw [hmin]
    exact int_floor_eval (by norm_num) (by norm_num)
  have hstop : ⌈(1.2 : ℚ) * pyMax ([0, 1] : List ℚ) / 2⌉ = 1 := by
    rw [hmax]
    exact int_ceil_eval (by norm_num) (by norm_num)
  have hout : (List.range ((1 : ℤ) + 1 - 0).toNat).map
      (fun (y : ℕ) => (((0 : ℤ) + (y : ℤ) : ℤ) : ℚ) * 2) = [0, 2] := by
    have h2 : ((1 : ℤ) + 1 - 0).toNat = 2 := rfl
    rw [h2]
    norm_num [List.range_succ]
  have hflog : floorLog10 (3 / 5) = -1 :=
    floorLog10_eq_of (by norm_num) (by norm_num) (by norm_num)
  have hspec : specNiceStep |rawPad [0, 1] 2| = 1 := by
    rw [hraw, habs]
    unfold specNiceStep specLeader
    rw [hflog]
    rw [if_neg (by norm_num), if_neg (by norm_num)]
    norm_num
  refine ⟨by decide, get_numeric_limits_eval hraw (by norm_num) hpad hstart hstop hout,
    hspec, ?_, ?_⟩
  · norm_num [List.chain'_cons, List.chain'_singleton]
  · intro hc
    rw [hspec] at hc
    simp only [List.chain'_cons, List.chain'_singleton, and_true] at hc
    norm_num at hc

/-- **C3** (witness): the amended step-rule theorem at `values = [0, 10]`,
`maxTicks = 4`. -/
theorem C3_step_rule_witness :
    ((0 : ℕ) < 4 ∧
      (0.95 : ℚ) * pyMin ([0, 10] : List ℚ) ≠ (1.2 : ℚ) * pyMax ([0, 10] : List ℚ)) ∧
    (∃ l, get_numeric_limits [0, 10] 4 = .ok l ∧
      rawPad [0, 10] 4 =
        ((1.2 : ℚ) * pyMax ([0, 10] : List ℚ) - (0.95 : ℚ) * pyMin ([0, 10] : List ℚ)) / ((4 : ℕ) : ℚ) ∧
      (∀ i (h : i + 1 < l.length),
        l.get ⟨i + 1, h⟩ - l.get ⟨i, Nat.lt_of_succ_lt h⟩ =
          numericLeader |rawPad [0, 10] 4| * (10 : ℚ) ^ intLog10 |rawPad [0, 10] 4|) ∧
      (1 ≤ |rawPad [0, 10] 4| →
        intLog10 |rawPad [0, 10] 4| = floorLog10 |rawPad [0, 10] 4|) ∧
      ((10 : ℚ) ^ floorLog10 |rawPad [0, 10] 4| ≤ |rawPad [0, 10] 4| ∧
        |rawPad [0, 10] 4| < (10 : ℚ) ^ (floorLog10 |rawPad [0, 10] 4| + 1)) ∧
      (numericLeader |rawPad [0, 10] 4| = 2 ↔
        |rawPad [0, 10] 4| ^ (1000 : ℕ) <
          (10 : ℚ) ^ (1000 * intLog10 |rawPad [0, 10] 4| + 301)) ∧
      (numericLeader |rawPad [0, 10] 4| = 5 ↔
        (¬ |rawPad [0, 10] 4| ^ (1000 : ℕ) <
            (10 : ℚ) ^ (1000 * intLog10 |rawPad [0, 10] 4| + 301) ∧
          |rawPad [0, 10] 4| ^ (1000 : ℕ) <
            (10 : ℚ) ^ (1000 * intLog10 |rawPad [0, 10] 4| + 698))) ∧
      (numericLeader |rawPad [0, 10] 4| = 10 ↔
        ¬ |rawPad [0, 10] 4| ^ (1000 : ℕ) <
          (10 : ℚ) ^ (1000 * intLog10 |rawPad [0, 10] 4| + 698))) :=
  ⟨⟨by norm_num, by norm_num [pyMin, pyMax, min_def, max_def]⟩,
    C3_step_rule [0, 10] 4 (by norm_num) (by norm_num [pyMin, pyMax, min_def, max_def])⟩

/-- Whether an `Except` computation raised (`.error`). -/
def exceptIsError {ε α : Type} : Except ε α → Bool
  | .error _ => true
  | .ok _ => false

theorem exceptIsError_map {ε α β : Type} (f : α → β) (e : Except ε α) :
    exceptIsError (e.map f) = exceptIsError e := by
  cases e <;> rfl

theorem monthIdx_idxDate {idx : ℕ} (h : 1 ≤ idx) :
    monthIdx (idxDate idx).year (idxDate idx).month = idx := by
  unfold monthIdx idxDate
  simp only
  omega

/-- **C5** (confirmed).  On a valid date input `get_big_date_limits` succeeds
and its ticks are all first-of-month dates, start at the first day of
`min(dates)`'s month, step by a constant month interval that is the smallest
candidate in `{1, 2, 3, 6, 12}` at least `rawInterval` (else `12`), and run up
to the end anchor — the first day of the month after `max(dates)`'s month —
inclusively: every tick's month index stays `≤` the anchor's, and every
progression point up to the anchor is emitted. -/
theorem C5_date_ticks (dates : List Date) (mt : ℕ) (_hmt : 0 < mt)
    (hval : ∀ d ∈ dates, d.Valid) (hdist : 2 ≤ dates.dedup.length) :
    ∃ ticks, get_big_date_limits dates mt = .ok ticks ∧
      (∀ t ∈ ticks, t.day = 1) ∧
      ticks.head? = some ⟨(pyMin dates).year, (pyMin dates).month, 1⟩ ∧
      List.Chain' (fun a b => monthIdx b.year b.month =
        monthIdx a.year a.month + dateInterval dates mt) ticks ∧
      dateInterval dates mt ∈ ([1, 2, 3, 6, 12] : List ℕ) ∧
      (rawInterval dates mt ≤ (dateInterval dates mt : ℚ) ∨ dateInterval dates mt = 12) ∧
      (∀ c ∈ ([1, 2, 3, 6, 12] : List ℕ), rawInterval dates mt ≤ (c : ℚ) →
        dateInterval dates mt ≤ c) ∧
      (∀ t ∈ ticks, monthIdx t.year t.month ≤ dateEndIdx dates) ∧
      (∀ k : ℕ, dateStartIdx dates + k * dateInterval dates mt ≤ dateEndIdx dates →
        idxDate (dateStartIdx dates + k * dateInterval dates mt) ∈ ticks) ∧
      dateEndIdx dates = monthIdx (pyMax dates).year (pyMax dates).month + 1 := by
  obtain ⟨hok, hle, hend⟩ := date_ticks_master dates mt hval hdist
  have hne : dates ≠ [] := by
    intro hq
    rw [hq] at hdist
    simp at hdist
  have hminval : (pyMin dates).Valid := hval _ (pyMin_mem hne)
  have hs1 : 1 ≤ dateStartIdx dates := by
    unfold dateStartIdx monthIdx
    have := hminval.2.1
    omega
  have hI : 1 ≤ dateInterval dates mt := snapInterval_pos _
  refine ⟨_, hok, ?_, ?_, ?_, snapInterval_mem _, snapInterval_ge _, snapInterval_min _,
    ?_, ?_, hend⟩
  · intro t ht
    obtain ⟨k, _, hk⟩ := List.mem_map.mp ht
    rw [← hk]
    rfl
  · have h0 : idxDate (dateStartIdx dates) =
        (⟨(pyMin dates).year, (pyMin dates).month, 1⟩ : Date) := by
      unfold dateStartIdx
      exact idxDate_monthIdx hminval.2.1 hminval.2.2.1
    simp only [List.range_succ_eq_map, List.map_cons, List.head?_cons, zero_mul, add_zero, h0]
  · apply List.chain'_iff_get.mpr
    intro i hi
    simp only [List.length_map, List.length_range] at hi
    simp only [List.get_eq_getElem, List.getElem_map, List.getElem_range]
    rw [monthIdx_idxDate (by have := hs1; omega), monthIdx_idxDate (by have := hs1; omega)]
    ring
  · intro t ht
    obtain ⟨k, hkmem, hk⟩ := List.mem_map.mp ht
    simp only [List.mem_range] at hkmem
    rw [← hk, monthIdx_idxDate (by have := hs1; omega)]
    have hk1 : k ≤ (dateEndIdx dates - dateStartIdx dates) / dateInterval dates mt := by
      omega
    have h2 : k * dateInterval dates mt ≤
        ((dateEndIdx dates - dateStartIdx dates) / dateInterval dates mt) *
          dateInterval dates mt :=
      Nat.mul_le_mul_right _ hk1
    have h3 : ((dateEndIdx dates - dateStartIdx dates) / dateInterval dates mt) *
        dateInterval dates mt ≤ dateEndIdx dates - dateStartIdx dates :=
      Nat.div_mul_le_self _ _
    omega
  · intro k hk
    apply List.mem_map.mpr
    refine ⟨k, ?_, rfl⟩
    simp only [List.mem_range]
    have h2 : k * dateInterval dates mt ≤ dateEndIdx dates - dateStartIdx dates := by
      omega
    have h3 : k ≤ (dateEndIdx dates - dateStartIdx dates) / dateInterval dates mt :=
      (Nat.le_div_iff_mul_le (by omega)).mpr h2
    omega

/-- **C5** (witness): the date-tick theorem at
`dates = [2024-01-15, 2024-06-20]`, `maxTicks = 6`. -/
theorem C5_date_ticks_witness :
    ((0 : ℕ) < 6 ∧ (∀ d ∈ [(⟨2024, 1, 15⟩ : Date), ⟨2024, 6, 20⟩], d.Valid) ∧
      2 ≤ ([(⟨2024, 1, 15⟩ : Date), ⟨2024, 6, 20⟩] : List Date).dedup.length) ∧
    (∃ ticks, get_big_date_limits [(⟨2024, 1, 15⟩ : Date), ⟨2024, 6, 20⟩] 6 = .ok ticks ∧
      (∀ t ∈ ticks, t.day = 1) ∧
      ticks.head? = some ⟨(pyMin [(⟨2024, 1, 15⟩ : Date), ⟨2024, 6, 20⟩]).year,
        (pyMin [(⟨2024, 1, 15⟩ : Date), ⟨2024, 6, 20⟩]).month, 1⟩ ∧
      List.Chain' (fun a b => monthIdx b.year b.month =
        monthIdx a.year a.month +
          dateInterval [(⟨2024, 1, 15⟩ : Date), ⟨2024, 6, 20⟩] 6) ticks ∧
      dateInterval [(⟨2024, 1, 15⟩ : Date), ⟨2024, 6, 20⟩] 6 ∈ ([1, 2, 3, 6, 12] : List ℕ) ∧
      (rawInterval [(⟨2024, 1, 15⟩ : Date), ⟨2024, 6, 20⟩] 6 ≤
          ((dateInterval [(⟨2024, 1, 15⟩ : Date), ⟨2024, 6, 20⟩] 6 : ℕ) : ℚ) ∨
        dateInterval [(⟨2024, 1, 15⟩ : Date), ⟨2024, 6, 20⟩] 6 = 12) ∧
      (∀ c ∈ ([1, 2, 3, 6, 12] : List ℕ),
        rawInterval [(⟨2024, 1, 15⟩ : Date), ⟨2024, 6, 20⟩] 6 ≤ (c : ℚ) →
        dateInterval [(⟨2024, 1, 15⟩ : Date), ⟨2024, 6, 20⟩] 6 ≤ c) ∧
      (∀ t ∈ ticks, monthIdx t.year t.month ≤
        dateEndIdx [(⟨2024, 1, 15⟩ : Date), ⟨2024, 6, 20⟩]) ∧
      (∀ k : ℕ, dateStartIdx [(⟨2024, 1, 15⟩ : Date), ⟨2024, 6, 20⟩] +
          k * dateInterval [(⟨2024, 1, 15⟩ : Date), ⟨2024, 6, 20⟩] 6 ≤
          dateEndIdx [(⟨2024, 1, 15⟩ : Date), ⟨2024, 6, 20⟩] →
        idxDate (dateStartIdx [(⟨2024, 1, 15⟩ : Date), ⟨2024, 6, 20⟩] +
          k * dateInterval [(⟨2024, 1, 15⟩ : Date), ⟨2024, 6, 20⟩] 6) ∈ ticks) ∧
      dateEndIdx [(⟨2024, 1, 15⟩ : Date), ⟨2024, 6, 20⟩] =
        monthIdx (pyMax [(⟨2024, 1, 15⟩ : Date), ⟨2024, 6, 20⟩]).year
          (pyMax [(⟨2024, 1, 15⟩ : Date), ⟨2024, 6, 20⟩]).month + 1) :=
  ⟨⟨by norm_num, by decide, by decide⟩,
    C5_date_ticks [(⟨2024, 1, 15⟩ : Date), ⟨2024, 6, 20⟩] 6 (by norm_num) (by decide) (by decide)⟩

/-- **C6** (confirmed).  Deterministic composition order: an axis renders its
baseline, then its tick lines, then its tick labels, then its grid lines; a
chart renders its x-axis, then its y-axis, then its legend (each skipped when
absent), then every series path in insertion order, then the custom elements
in insertion order. -/
theorem C6_composition_order :
    (∀ a : AxisS, a.get_element_list =
      (a.axis_line.elim [] LineS.get_element_list) ++
        a.tick_lines.flatMap LineS.get_element_list ++
        a.tick_text.flatMap TextS.get_element_list ++
        a.grid_lines.flatMap LineS.get_element_list) ∧
    (∀ c : ChartS, c.get_element_list =
      (c.x_axis.elim [] AxisS.get_element_list) ++
        (c.y_axis.elim [] AxisS.get_element_list) ++
        (c.legend.elim [] LegendS.get_element_list) ++
        c.series.flatMap (fun kv => kv.2.get_element_list) ++
        c.custom_elements.flatMap Prim.get_element_list) := by
  constructor
  · intro a
    cases ha : a.axis_line <;>
      simp [AxisS.get_element_list, ha, List.append_assoc]
  · intro c
    cases hx : c.x_axis <;> cases hy : c.y_axis <;> cases hl : c.legend <;>
      simp [ChartS.get_element_list, hx, hy, hl, Target.get_element_list,
        List.flatMap_append, List.flatMap_map, List.flatMap_cons, List.flatMap_nil,
        List.append_assoc, Function.comp]

/-- **C7** (code bug).  `add_x_grid` on a chart with both axes, two y-axis
limits and `minor_ticks = 1` is claimed to append its one major and one minor
gridline to the x-axis (the axis being gridded), leaving the y-axis's list
unchanged; instead the minor gridline lands in `y_axis.grid_lines` — the
source appends minors to `self.y_axis.grid_lines` inside `add_x_grid` — so
both lists end up with exactly one element. -/
theorem C7_add_x_grid_bug :
    ∃ c', add_x_grid (⟨600, 800,
        some ⟨100, 500, 600, [Value.num 0, Value.num 1], none, [], [], []⟩,
        some ⟨100, 100, 400, [Value.num 0, Value.num 5], none, [], [], []⟩,
        none, [], []⟩ : ChartS) 1 none none = .ok c' ∧
      c'.x_axis.map (fun a => a.grid_lines.length) = some 1 ∧
      c'.y_axis.map (fun a => a.grid_lines.length) = some 1 := by
  refine ⟨_, rfl, ?_, ?_⟩
  · simp
  · simp [List.range_succ, Function.comp]

/-- **C8** (confirmed).  On any axis whose limits hold at least two distinct
values, `proportion_of_range` maps the smallest limit to exactly `0` and the
largest to exactly `1` — on numeric axes directly, and on date axes (where
Python divides the `timedelta`s) given structurally valid dates. -/
theorem C8_proportion_endpoints :
    (∀ a : AxisS, 2 ≤ (numValues a.limits).dedup.length →
      a.proportion_of_range (pyMin (numValues a.limits)) = 0 ∧
      a.proportion_of_range (pyMax (numValues a.limits)) = 1) ∧
    (∀ a : AxisS, (∀ d ∈ dateValues a.limits, d.Valid) →
      2 ≤ (dateValues a.limits).dedup.length →
      a.proportion_of_range_date (pyMin (dateValues a.limits)) = 0 ∧
      a.proportion_of_range_date (pyMax (dateValues a.limits)) = 1) := by
  constructor
  · intro a hdist
    have hlt := pyMin_lt_pyMax hdist
    unfold AxisS.proportion_of_range
    constructor
    · rw [sub_self, zero_div]
    · exact div_self (ne_of_gt (sub_pos.mpr hlt))
  · intro a hval hdist
    have hlt := pyMin_lt_pyMax hdist
    have hne : dateValues a.limits ≠ [] := by
      intro hq
      rw [hq] at hdist
      simp at hdist
    have hord : (pyMin (dateValues a.limits)).toOrd < (pyMax (dateValues a.limits)).toOrd :=
      Date.toOrd_lt_of_lt (hval _ (pyMin_mem hne)) (hval _ (pyMax_mem hne)) hlt
    have hordq : (((pyMin (dateValues a.limits)).toOrd : ℚ)) <
        (((pyMax (dateValues a.limits)).toOrd : ℚ)) := by exact_mod_cast hord
    unfold AxisS.proportion_of_range_date
    constructor
    · rw [sub_self, zero_div]
    · exact div_self (ne_of_gt (sub_pos.mpr hordq))

/-- **C8** (witness): the endpoint theorem at a numeric axis with limits
`[0, 10]` and a date axis with limits `[2024-01-01, 2024-03-01]`. -/
theorem C8_proportion_endpoints_witness :
    (2 ≤ (numValues ([Value.num 0, Value.num 10])).dedup.length ∧
      ((⟨0, 0, 100, [Value.num 0, Value.num 10], none, [], [], []⟩ : AxisS).proportion_of_range
          (pyMin (numValues ([Value.num 0, Value.num 10]))) = 0 ∧
        (⟨0, 0, 100, [Value.num 0, Value.num 10], none, [], [], []⟩ : AxisS).proportion_of_range
          (pyMax (numValues ([Value.num 0, Value.num 10]))) = 1)) ∧
    ((∀ d ∈ dateValues [Value.date ⟨2024, 1, 1⟩, Value.date ⟨2024, 3, 1⟩], d.Valid) ∧
      2 ≤ (dateValues [Value.date ⟨2024, 1, 1⟩, Value.date ⟨2024, 3, 1⟩]).dedup.length ∧
      ((⟨0, 0, 100, [Value.date ⟨2024, 1, 1⟩, Value.date ⟨2024, 3, 1⟩], none, [], [],
            []⟩ : AxisS).proportion_of_range_date
          (pyMin (dateValues [Value.date ⟨2024, 1, 1⟩, Value.date ⟨2024, 3, 1⟩])) = 0 ∧
        (⟨0, 0, 100, [Value.date ⟨2024, 1, 1⟩, Value.date ⟨2024, 3, 1⟩], none, [], [],
            []⟩ : AxisS).proportion_of_range_date
          (pyMax (dateValues [Value.date ⟨2024, 1, 1⟩, Value.date ⟨2024, 3, 1⟩])) = 1)) :=
  ⟨⟨by decide, C8_proportion_endpoints.1
      ⟨0, 0, 100, [Value.num 0, Value.num 10], none, [], [], []⟩ (by decide)⟩,
    ⟨by decide, by decide, C8_proportion_endpoints.2
      ⟨0, 0, 100, [Value.date ⟨2024, 1, 1⟩, Value.date ⟨2024, 3, 1⟩], none, [], [], []⟩
      (by decide) (by decide)⟩⟩

theorem except_bind_ok {α β : Type} (a : α) (f : α → Except String β) :
    ((Except.ok a : Except String α) >>= f) = f a := rfl

theorem except_bind_error {α β : Type} (e : String) (f : α → Except String β) :
    ((Except.error e : Except String α) >>= f) = (Except.error e : Except String β) := rfl

theorem except_pure {α : Type} (a : α) : (pure a : Except String α) = Except.ok a := rfl

/-- `simpleLineChart` with its local `let`s inlined (definitional). -/
theorem simpleLineChart_eq (x_values : List Value) (y_values : List (List ℚ))
    (y_names : Option (List String)) (x_max_ticks y_max_ticks : ℕ)
    (x_margin y_margin height width : ℚ) (x_labels y_labels : Value → String) :
    simpleLineChart x_values y_values y_names x_max_ticks y_max_ticks
        x_margin y_margin height width x_labels y_labels =
      (yAxisInit x_margin y_margin ((y_values.flatten).map Value.num) (height - 2 * y_margin)
          y_labels y_max_ticks none 5) >>= (fun y_axis =>
        (xAxisInit x_margin (height - y_margin) x_values (width - 2 * x_margin) x_labels
            x_max_ticks none 5) >>= (fun x_axis =>
          (((y_names.getD ["Series range(0, " ++ toString y_values.length ++ ")"]).zip
              y_values).mapM (fun kv =>
            (simpleLineSeriesInit (List.zipWith Point.mk
              (x_axis.simple_get_positions_x x_values)
              (y_axis.get_positions_y kv.2))).map (fun s => (kv.1, s)))) >>= (fun built =>
            (assignColours 0 (built.foldl (fun d kv => dictInsert kv.1 kv.2 d) [])) >>=
              (fun series =>
                pure { height := height, width := width, x_axis := some x_axis,
                       y_axis := some y_axis, legend := none, series := series,
                       custom_elements := [] })))) := rfl

theorem yAxisInit_error {xp yp al tl : ℚ} {dp : List Value} {lf : Value → String}
    {mt : ℕ} {st : Option StyleMap} {e : String}
    (h : get_limits dp mt = .error e) :
    yAxisInit xp yp dp al lf mt st tl = .error e := by
  unfold yAxisInit
  rw [h, except_bind_error]

theorem xAxisInit_error {xp yp al tl : ℚ} {dp : List Value} {lf : Value → String}
    {mt : ℕ} {st : Option StyleMap} {e : String}
    (h : get_limits dp mt = .error e) :
    xAxisInit xp yp dp al lf mt st tl = .error e := by
  unfold xAxisInit
  rw [h, except_bind_error]

theorem yAxisInit_ok {xp yp al tl : ℚ} {dp : List Value} {lf : Value → String}
    {mt : ℕ} {st : Option StyleMap} {L : List Value}
    (h : get_limits dp mt = .ok L) :
    yAxisInit xp yp dp al lf mt st tl = .ok {
      posx := xp, posy := yp, length := al, limits := L,
      axis_line := some ⟨xp, yp, 0, al, st.getD default_axis_styles⟩,
      tick_lines := (List.range L.length).map (fun i =>
        ⟨xp - tl, ((L.length - 1 - i : ℕ) : ℚ) * al / ((L.length : ℚ) - 1) + yp, tl, 0,
          st.getD default_axis_styles⟩),
      tick_text := L.enum.map (fun im =>
        ⟨xp - 2 * tl, ((L.length - 1 - im.1 : ℕ) : ℚ) * al / ((L.length : ℚ) - 1) + yp,
          lf im.2, yaxis_tick_text_styles⟩),
      grid_lines := [] } := by
  unfold yAxisInit
  rw [h, except_bind_ok, except_pure]

theorem xAxisInit_ok {xp yp al tl : ℚ} {dp : List Value} {lf : Value → String}
    {mt : ℕ} {st : Option StyleMap} {L : List Value}
    (h : get_limits dp mt = .ok L) :
    xAxisInit xp yp dp al lf mt st tl = .ok {
      posx := xp, posy := yp, length := al, limits := L,
      axis_line := some ⟨xp, yp, al, 0, st.getD default_axis_styles⟩,
      tick_lines := (List.range L.length).map (fun i =>
        ⟨(i : ℚ) * al / ((L.length : ℚ) - 1) + xp, yp, 0, tl, st.getD default_axis_styles⟩),
      tick_text := L.enum.map (fun im =>
        ⟨(im.1 : ℚ) * al / ((L.length : ℚ) - 1) + xp, yp + 2 * tl,
          lf im.2, xaxis_tick_text_styles⟩),
      grid_lines := [] } := by
  unfold xAxisInit
  rw [h, except_bind_ok, except_pure]

theorem simpleLineSeriesInit_ok_elim {pts : List Point} {s : SeriesS}
    (h : simpleLineSeriesInit pts = .ok s) : s = ⟨pts, path_default_styles⟩ := by
  cases pts with
  | nil => exact Except.noConfusion h
  | cons p ps =>
    rw [show simpleLineSeriesInit (p :: ps) =
      .ok (⟨p :: ps, path_default_styles⟩ : SeriesS) from rfl] at h
    injection h with h2
    exact h2.symm

/-- **C9** (confirmed).  With `y_names` omitted, any successfully constructed
`SimpleLineChart` holds exactly one series: the default name list is the
one-element `['Series range(0, N)']` (Python formats the *range object*, with
`N` the number of y-lists), `zip` truncates to it, and the single series is
built from the first y-value list only, with the default path styles plus the
first default stroke colour. -/
theorem C9_default_series_name (x_values : List Value) (y_values : List (List ℚ))
    (x_max_ticks y_max_ticks : ℕ) (x_margin y_margin height width : ℚ)
    (x_labels y_labels : Value → String) (c : ChartS)
    (h : simpleLineChart x_values y_values none x_max_ticks y_max_ticks
      x_margin y_margin height width x_labels y_labels = .ok c) :
    c.series.map Prod.fst = ["Series range(0, " ++ toString y_values.length ++ ")"] ∧
    ∃ xa ya, c.x_axis = some xa ∧ c.y_axis = some ya ∧
      c.series.map (fun kv => kv.2.points) =
        [List.zipWith Point.mk (xa.simple_get_positions_x x_values)
          (ya.get_positions_y (y_values.headD []))] ∧
      c.series.map (fun kv => kv.2.styles) =
        [dictInsert "stroke" "green" path_default_styles] := by
  rw [simpleLineChart_eq] at h
  cases y_values with
  | nil =>
    have hgl : get_limits ((([] : List (List ℚ)).flatten).map Value.num) y_max_ticks =
        .error "Values must be a non-empty iterable with at least two unique elements." := rfl
    rw [yAxisInit_error hgl, except_bind_error] at h
    exact Except.noConfusion h
  | cons y0 rest =>
    cases hy : yAxisInit x_margin y_margin (((y0 :: rest).flatten).map Value.num)
        (height - 2 * y_margin) y_labels y_max_ticks none 5 with
    | error e =>
      rw [hy, except_bind_error] at h
      exact Except.noConfusion h
    | ok ya =>
      rw [hy, except_bind_ok] at h
      cases hx : xAxisInit x_margin (height - y_margin) x_values (width - 2 * x_margin)
          x_labels x_max_ticks none 5 with
      | error e =>
        rw [hx, except_bind_error] at h
        exact Except.noConfusion h
      | ok xa =>
        rw [hx, except_bind_ok] at h
        rw [Option.getD_none] at h
        simp only [List.zip_cons_cons, List.zip_nil_left, List.mapM_cons, List.mapM_nil] at h
        cases hs : simpleLineSeriesInit (List.zipWith Point.mk
            (xa.simple_get_positions_x x_values) (ya.get_positions_y y0)) with
        | error e =>
          rw [hs] at h
          simp only [Except.map, except_bind_error] at h
          exact Except.noConfusion h
        | ok s0 =>
          rw [hs] at h
          simp only [Except.map, except_bind_ok, except_pure] at h
          rw [show List.foldl (fun d kv => dictInsert kv.1 kv.2 d) []
              [("Series range(0, " ++ toString (y0 :: rest).length ++ ")", s0)] =
            [("Series range(0, " ++ toString (y0 :: rest).length ++ ")", s0)] from rfl] at h
          rw [show assignColours 0
              [("Series range(0, " ++ toString (y0 :: rest).length ++ ")", s0)] =
            .ok [("Series range(0, " ++ toString (y0 :: rest).length ++ ")",
              ⟨s0.points, dictInsert "stroke" "green" s0.styles⟩)] from rfl] at h
          rw [except_bind_ok] at h
          obtain rfl := simpleLineSeriesInit_ok_elim hs
          injection h with h2
          subst h2
          exact ⟨rfl, xa, ya, rfl, rfl, rfl, rfl⟩

theorem y_example_limits : get_numeric_limits [(0 : ℚ), 2] 1 = .ok [0, 5] := by
  have hmin : pyMin ([(0 : ℚ), 2]) = 0 := by norm_num [pyMin, min_def]
  have hmax : pyMax ([(0 : ℚ), 2]) = 2 := by norm_num [pyMax, max_def]
  have hraw : rawPad [(0 : ℚ), 2] 1 = 12 / 5 := by
    unfold rawPad
    rw [hmin, hmax]
    norm_num
  have habs : |(12 / 5 : ℚ)| = 12 / 5 := by norm_num
  have hlog : intLog10 (12 / 5) = 0 :=
    intLog10_eq_of_ge_one (by norm_num) (by norm_num) (by norm_num)
  have hlead : numericLeader (12 / 5) = 5 :=
    numericLeader_eval_five hlog (by norm_num) (by norm_num)
  have hpad : numericPad |(12 / 5 : ℚ)| = 5 := by
    rw [habs, numericPad_eval hlog hlead]
    norm_num
  have hstart : ⌊(0.95 : ℚ) * pyMin ([(0 : ℚ), 2]) / 5⌋ = 0 := by
    rw [hmin]
    exact int_floor_eval (by norm_num) (by norm_num)
  have hstop : ⌈(1.2 : ℚ) * pyMax ([(0 : ℚ), 2]) / 5⌉ = 1 := by
    rw [hmax]
    exact int_ceil_eval (by norm_num) (by norm_num)
  have hout : (List.range ((1 : ℤ) + 1 - 0).toNat).map
      (fun (y : ℕ) => (((0 : ℤ) + (y : ℤ) : ℤ) : ℚ) * 5) = [0, 5] := by
    have h2 : ((1 : ℤ) + 1 - 0).toNat = 2 := rfl
    rw [h2]
    norm_num [List.range_succ]
  exact get_numeric_limits_eval hraw (by norm_num) hpad hstart hstop hout

theorem x_example_limits : get_numeric_limits [(0 : ℚ), 1] 1 = .ok [0, 2] := by
  have hmin : pyMin ([(0 : ℚ), 1]) = 0 := by norm_num [pyMin, min_def]
  have hmax : pyMax ([(0 : ℚ), 1]) = 1 := by norm_num [pyMax, max_def]
  have hraw : rawPad [(0 : ℚ), 1] 1 = 6 / 5 := by
    unfold rawPad
    rw [hmin, hmax]
    norm_num
  have habs : |(6 / 5 : ℚ)| = 6 / 5 := by norm_num
  have hlog : intLog10 (6 / 5) = 0 :=
    intLog10_eq_of_ge_one (by norm_num) (by norm_num) (by norm_num)
  have hlead : numericLeader (6 / 5) = 2 :=
    numericLeader_eval_two hlog (by norm_num)
  have hpad : numericPad |(6 / 5 : ℚ)| = 2 := by
    rw [habs, numericPad_eval hlog hlead]
    norm_num
  have hstart : ⌊(0.95 : ℚ) * pyMin ([(0 : ℚ), 1]) / 2⌋ = 0 := by
    rw [hmin]
    exact int_floor_eval (by norm_num) (by norm_num)
  have hstop : ⌈(1.2 : ℚ) * pyMax ([(0 : ℚ), 1]) / 2⌉ = 1 := by
    rw [hmax]
    exact int_ceil_eval (by norm_num) (by norm_num)
  have hout : (List.range ((1 : ℤ) + 1 - 0).toNat).map
      (fun (y : ℕ) => (((0 : ℤ) + (y : ℤ) : ℤ) : ℚ) * 2) = [0, 2] := by
    have h2 : ((1 : ℤ) + 1 - 0).toNat = 2 := rfl
    rw [h2]
    norm_num [List.range_succ]
  exact get_numeric_limits_eval hraw (by norm_num) hpad hstart hstop hout

/-- A concrete `SimpleLineChart` construction that succeeds. -/
theorem slcExample :
    ∃ c, simpleLineChart [Value.num 0, Value.num 1] [[(0 : ℚ), 2]] none 1 1 100 100 600 800
        (fun _ => "") (fun _ => "") = .ok c := by
  have hgly : get_limits ((([[(0 : ℚ), 2]] : List (List ℚ)).flatten).map Value.num) 1 =
      .ok ([(0 : ℚ), 5].map Value.num) := by
    rw [show ([[(0 : ℚ), 2]] : List (List ℚ)).flatten = [(0 : ℚ), 2] from rfl,
      get_limits_num (by decide), y_example_limits]
    rfl
  have hglx : get_limits [Value.num 0, Value.num 1] 1 = .ok ([(0 : ℚ), 2].map Value.num) := by
    rw [show [Value.num 0, Value.num 1] = [(0 : ℚ), 1].map Value.num from rfl,
      get_limits_num (by decide), x_example_limits]
    rfl
  rw [simpleLineChart_eq, yAxisInit_ok hgly, except_bind_ok, xAxisInit_ok hglx, except_bind_ok]
  exact ⟨_, rfl⟩

/-- **C9** (witness): the default-name theorem at
`x_values = [0, 1]`, `y_values = [[0, 2]]`, `y_names = None`. -/
theorem C9_default_series_name_witness :
    ∃ c, simpleLineChart [Value.num 0, Value.num 1] [[(0 : ℚ), 2]] none 1 1 100 100 600 800
        (fun _ => "") (fun _ => "") = .ok c ∧
      (c.series.map Prod.fst =
          ["Series range(0, " ++ toString ([[(0 : ℚ), 2]] : List (List ℚ)).length ++ ")"] ∧
        ∃ xa ya, c.x_axis = some xa ∧ c.y_axis = some ya ∧
          c.series.map (fun kv => kv.2.points) =
            [List.zipWith Point.mk (xa.simple_get_positions_x [Value.num 0, Value.num 1])
              (ya.get_positions_y (([[(0 : ℚ), 2]] : List (List ℚ)).headD []))] ∧
          c.series.map (fun kv => kv.2.styles) =
            [dictInsert "stroke" "green" path_default_styles]) := by
  obtain ⟨c, hok⟩ := slcExample
  exact ⟨c, hok, C9_default_series_name [Value.num 0, Value.num 1] [[(0 : ℚ), 2]] 1 1
    100 100 600 800 (fun _ => "") (fun _ => "") c hok⟩

theorem dictInsert_fresh {α : Type} (k : String) (v : α) :
    ∀ (d : List (String × α)), k ∉ d.map Prod.fst → dictInsert k v d = d ++ [(k, v)] := by
  intro d
  induction d with
  | nil => intro _; rfl
  | cons kv rest ih =>
    intro h
    simp only [List.map_cons, List.mem_cons] at h
    push_neg at h
    obtain ⟨h1, h2⟩ := h
    unfold dictInsert
    rw [if_neg (fun hc => h1 hc.symm), ih h2]
    rfl

theorem foldl_dictInsert_eq_append {α : Type} :
    ∀ (l : List (String × α)) (d : List (String × α)),
      (d.map Prod.fst ++ l.map Prod.fst).Nodup →
      l.foldl (fun d kv => dictInsert kv.1 kv.2 d) d = d ++ l := by
  intro l
  induction l with
  | nil =>
    intro d _
    simp
  | cons kv rest ih =>
    intro d h
    simp only [List.foldl_cons]
    have hk : kv.1 ∉ d.map Prod.fst := by
      simp only [List.map_cons, List.nodup_append] at h
      intro hc
      exact h.2.2 hc (List.mem_cons_self kv.1 (rest.map Prod.fst))
    rw [dictInsert_fresh kv.1 kv.2 d hk]
    have hnext : ((d ++ [(kv.1, kv.2)]).map Prod.fst ++ rest.map Prod.fst).Nodup := by
      rw [List.map_append, List.append_assoc]
      rw [List.map_cons] at h
      exact h
    rw [ih (d ++ [(kv.1, kv.2)]) hnext]
    simp

theorem assignColours_error : ∀ (i : ℕ) (l : List (String × SeriesS)),
    3 < i + l.length → l ≠ [] → exceptIsError (assignColours i l) = true := by
  intro i l
  induction l generalizing i with
  | nil =>
    intro _ hne
    exact absurd rfl hne
  | cons kv rest ih =>
    obtain ⟨k, s⟩ := kv
    intro hlen _
    by_cases hi : i < 3
    · have hc : ∃ col, line_colour_defaults.get? i = some col := by
        interval_cases i
        · exact ⟨"green", rfl⟩
        · exact ⟨"red", rfl⟩
        · exact ⟨"blue", rfl⟩
      obtain ⟨col, hcol⟩ := hc
      have hrest : rest ≠ [] := by
        intro hr
        rw [hr] at hlen
        simp at hlen
        omega
      rw [show assignColours i ((k, s) :: rest) =
        (match line_colour_defaults.get? i with
        | none => (.error "IndexError: list index out of range" :
            Except String (List (String × SeriesS)))
        | some c => (assignColours (i + 1) rest).map
            (fun rest' => (k, ⟨s.points, dictInsert "stroke" c s.styles⟩) :: rest')) from rfl,
        hcol]
      show exceptIsError ((assignColours (i + 1) rest).map
        (fun rest' => (k, ⟨s.points, dictInsert "stroke" col s.styles⟩) :: rest')) = true
      rw [exceptIsError_map]
      exact ih (i + 1) (by simp at hlen ⊢; omega) hrest
    · have hcol : line_colour_defaults.get? i = none :=
        List.get?_eq_none.mpr (by simp [line_colour_defaults]; omega)
      rw [show assignColours i ((k, s) :: rest) =
        (match line_colour_defaults.get? i with
        | none => (.error "IndexError: list index out of range" :
            Except String (List (String × SeriesS)))
        | some c => (assignColours (i + 1) rest).map
            (fun rest' => (k, ⟨s.points, dictInsert "stroke" c s.styles⟩) :: rest')) from rfl,
        hcol]
      rfl

theorem assignColours_ok_length : ∀ (i : ℕ) (l out : List (String × SeriesS)),
    assignColours i l = .ok out → out.length = l.length ∧ (l = [] ∨ i + l.length ≤ 3) := by
  intro i l
  induction l generalizing i with
  | nil =>
    intro out h
    rw [show assignColours i ([] : List (String × SeriesS)) = .ok [] from rfl] at h
    injection h with h2
    rw [← h2]
    exact ⟨rfl, Or.inl rfl⟩
  | cons kv rest ih =>
    obtain ⟨k, s⟩ := kv
    intro out h
    rw [show assignColours i ((k, s) :: rest) =
      (match line_colour_defaults.get? i with
      | none => (.error "IndexError: list index out of range" :
          Except String (List (String × SeriesS)))
      | some c => (assignColours (i + 1) rest).map
          (fun rest' => (k, ⟨s.points, dictInsert "stroke" c s.styles⟩) :: rest')) from rfl] at h
    cases hcol : line_colour_defaults.get? i with
    | none =>
      rw [hcol] at h
      exact Except.noConfusion h
    | some col =>
      rw [hcol] at h
      have hi : i < 3 := by
        by_contra hge
        rw [List.get?_eq_none.mpr (by simp [line_colour_defaults]; omega)] at hcol
        exact Option.noConfusion hcol
      cases hrec : assignColours (i + 1) rest with
      | error e =>
        rw [hrec] at h
        exact Except.noConfusion h
      | ok out' =>
        rw [hrec] at h
        have h2 : ((k, (⟨s.points, dictInsert "stroke" col s.styles⟩ : SeriesS)) :: out') =
            out := by
          injection h with h3
        obtain ⟨ihlen, ihd⟩ := ih (i + 1) out' hrec
        constructor
        · rw [← h2]
          simp only [List.length_cons, ihlen]
        · right
          rcases ihd with hr | hr
          · rw [hr]
            simp
            omega
          · simp only [List.length_cons]
            omega

theorem mapM_series_fst {g : String × List ℚ → Except String SeriesS} :
    ∀ {pairs : List (String × List ℚ)} {out : List (String × SeriesS)},
    pairs.mapM (fun kv => (g kv).map (fun s => (kv.1, s))) = .ok out →
    out.map Prod.fst = pairs.map Prod.fst := by
  intro pairs
  induction pairs with
  | nil =>
    intro out h
    rw [List.mapM_nil, except_pure] at h
    injection h with h2
    rw [← h2]
    rfl
  | cons kv rest ih =>
    intro out h
    rw [List.mapM_cons] at h
    cases hg : g kv with
    | error e =>
      rw [hg] at h
      rw [show ((Except.error e : Except String SeriesS).map (fun s => (kv.1, s))) =
        (Except.error e : Except String (String × SeriesS)) from rfl, except_bind_error] at h
      exact Except.noConfusion h
    | ok s =>
      rw [hg] at h
      rw [show ((Except.ok s : Except String SeriesS).map (fun s => (kv.1, s))) =
        (Except.ok (kv.1, s) : Except String (String × SeriesS)) from rfl, except_bind_ok] at h
      cases hrest : rest.mapM (fun kv => (g kv).map (fun s => (kv.1, s))) with
      | error e =>
        rw [hrest, except_bind_error] at h
        exact Except.noConfusion h
      | ok outr =>
        rw [hrest, except_bind_ok, except_pure] at h
        injection h with h2
        rw [← h2]
        simp [ih hrest]

/-- **C10** (confirmed).  The default stroke-colour list has exactly three
entries and `__init__` indexes it by series position, so (a) constructing a
`SimpleLineChart` with more than three distinctly named series always fails
(with `IndexError` at the colour loop, or earlier), and (b) any chart the
constructor does return holds at most three series. -/
theorem C10_colour_limit :
    (∀ (x_values : List Value) (y_values : List (List ℚ)) (ns : List String)
        (x_max_ticks y_max_ticks : ℕ) (x_margin y_margin height width : ℚ)
        (x_labels y_labels : Value → String),
      ns.Nodup → ns.length = y_values.length → 3 < ns.length →
      exceptIsError (simpleLineChart x_values y_values (some ns) x_max_ticks y_max_ticks
        x_margin y_margin height width x_labels y_labels) = true) ∧
    (∀ (x_values : List Value) (y_values : List (List ℚ)) (y_names : Option (List String))
        (x_max_ticks y_max_ticks : ℕ) (x_margin y_margin height width : ℚ)
        (x_labels y_labels : Value → String) (c : ChartS),
      simpleLineChart x_values y_values y_names x_max_ticks y_max_ticks
        x_margin y_margin height width x_labels y_labels = .ok c →
      c.series.length ≤ 3) := by
  constructor
  · intro xv yv ns xmt ymt xm ym ht w xl yl hnd hlen hgt
    rw [simpleLineChart_eq]
    cases hy : yAxisInit xm ym ((yv.flatten).map Value.num) (ht - 2 * ym) yl ymt none 5 with
    | error e => rw [except_bind_error]; rfl
    | ok ya =>
      rw [except_bind_ok]
      cases hx : xAxisInit xm (ht - ym) xv (w - 2 * xm) xl xmt none 5 with
      | error e => rw [except_bind_error]; rfl
      | ok xa =>
        rw [except_bind_ok, Option.getD_some]
        cases hm : (ns.zip yv).mapM (fun kv =>
            (simpleLineSeriesInit (List.zipWith Point.mk (xa.simple_get_positions_x xv)
              (ya.get_positions_y kv.2))).map (fun s => (kv.1, s))) with
        | error e => rw [except_bind_error]; rfl
        | ok built =>
          rw [except_bind_ok]
          have hfst : built.map Prod.fst = ns := by
            rw [mapM_series_fst hm]
            exact List.map_fst_zip ns yv (le_of_eq hlen)
          have hblen : 3 < built.length := by
            have hl := congrArg List.length hfst
            simp only [List.length_map] at hl
            omega
          have hbne : built ≠ [] := by
            intro hb
            rw [hb] at hblen
            simp at hblen
          have hfold : built.foldl (fun d kv => dictInsert kv.1 kv.2 d) [] = built := by
            have hcond : (([] : List (String × SeriesS)).map Prod.fst ++
                built.map Prod.fst).Nodup := by
              rw [hfst]
              simpa using hnd
            simpa using foldl_dictInsert_eq_append built [] hcond
          rw [hfold]
          have herr := assignColours_error 0 built (by omega) hbne
          cases ha : assignColours 0 built with
          | error e => rw [except_bind_error]; rfl
          | ok o =>
            rw [ha] at herr
            exact absurd herr (by simp [exceptIsError])
  · intro xv yv yn xmt ymt xm ym ht w xl yl c hok
    rw [simpleLineChart_eq] at hok
    cases hy : yAxisInit xm ym ((yv.flatten).map Value.num) (ht - 2 * ym) yl ymt none 5 with
    | error e =>
      rw [hy, except_bind_error] at hok
      exact Except.noConfusion hok
    | ok ya =>
      rw [hy, except_bind_ok] at hok
      cases hx : xAxisInit xm (ht - ym) xv (w - 2 * xm) xl xmt none 5 with
      | error e =>
        rw [hx, except_bind_error] at hok
        exact Except.noConfusion hok
      | ok xa =>
        rw [hx, except_bind_ok] at hok
        cases hm : ((yn.getD ["Series range(0, " ++ toString yv.length ++ ")"]).zip yv).mapM
            (fun kv => (simpleLineSeriesInit (List.zipWith Point.mk
              (xa.simple_get_positions_x xv) (ya.get_positions_y kv.2))).map
                (fun s => (kv.1, s))) with
        | error e =>
          rw [hm, except_bind_error] at hok
          exact Except.noConfusion hok
        | ok built =>
          rw [hm, except_bind_ok] at hok
          cases ha : assignColours 0 (built.foldl (fun d kv => dictInsert kv.1 kv.2 d) []) with
          | error e =>
            rw [ha, except_bind_error] at hok
            exact Except.noConfusion hok
          | ok series =>
            rw [ha, except_bind_ok, except_pure] at hok
            injection hok with h2
            obtain ⟨hslen, hdis⟩ := assignColours_ok_length 0 _ series ha
            rw [← h2]
            simp only []
            rcases hdis with hr | hr
            · rw [hslen, hr]
              simp
            · omega

/-- **C10** (witness): part (a) at four distinct names, part (b) at the
concrete successful chart of `slcExample`. -/
theorem C10_colour_limit_witness :
    ((["a", "b", "c", "d"] : List String).Nodup ∧
      (["a", "b", "c", "d"] : List String).length =
        ([[0], [0], [0], [(0 : ℚ)]] : List (List ℚ)).length ∧
      3 < (["a", "b", "c", "d"] : List String).length ∧
      exceptIsError (simpleLineChart [Value.num 0, Value.num 1] [[0], [0], [0], [(0 : ℚ)]]
        (some ["a", "b", "c", "d"]) 1 1 100 100 600 800 (fun _ => "") (fun _ => "")) = true) ∧
    (∃ c, simpleLineChart [Value.num 0, Value.num 1] [[(0 : ℚ), 2]] none 1 1 100 100 600 800
        (fun _ => "") (fun _ => "") = .ok c ∧ c.series.length ≤ 3) := by
  constructor
  · refine ⟨by decide, by decide, by decide, ?_⟩
    exact C10_colour_limit.1 [Value.num 0, Value.num 1] [[0], [0], [0], [(0 : ℚ)]]
      ["a", "b", "c", "d"] 1 1 100 100 600 800 (fun _ => "") (fun _ => "")
      (by decide) (by decide) (by decide)
  · obtain ⟨c, hok⟩ := slcExample
    exact ⟨c, hok, C10_colour_limit.2 [Value.num 0, Value.num 1] [[(0 : ℚ), 2]] none 1 1
      100 100 600 800 (fun _ => "") (fun _ => "") c hok⟩
